import Mathlib

/-!
Kernel monitor (`kern/monitor.c`).

A shallow embedding of `mon_backtrace`, `runcmd`, `monitor` and the commands of
`kern/monitor.c`, and the properties of the frame walk and of the command
interpreter.

* Memory is byte addressed, 32-bit, little endian (x86); `ebp[k]` is the 32-bit
  word at byte address `ebp + 4 * k`.
* `debuginfo_eip` is an external function: it is a parameter of the model. It
  receives the address, the (zeroed) `struct Eipdebuginfo` and the memory, and
  gives back its `int` result, the filled record and the memory it leaves.
* Every `cprintf` call is one output record that keeps the arguments passed
  with the format string of that call site; `render` gives the text of the
  records of `mon_backtrace`, with the conversions of `cprintf` modelled from
  the specification.
* The command buffer of `runcmd` is a list of characters followed by a NUL; the
  pointer `buf` splits it into the characters before and from the pointer on.
* The loops `while (ebp)` of `mon_backtrace` and `while (1)` of `runcmd` are
  modelled by iteration with fuel.
-/

set_option linter.unusedVariables false

namespace Monitor

/-! ## Machine model -/

/-- Byte addressed memory: the byte stored at each address. -/
abbrev Mem := Nat → Nat

/-- Number of distinct values of a `uint32_t` (2 ^ 32). -/
def WORD : Nat := 4294967296

/-- A `uint32_t` load at byte address `a` (little endian, addresses wrap). -/
def load32 (m : Mem) (a : Nat) : Nat :=
  m (a % WORD) % 256
    + 256 * (m ((a + 1) % WORD) % 256)
    + 65536 * (m ((a + 2) % WORD) % 256)
    + 16777216 * (m ((a + 3) % WORD) % 256)

/-- Subtraction of two `uint32_t` values (`ebp[1] - info.eip_fn_addr`). -/
def sub32 (a b : Nat) : Nat :=
  (a % WORD + (WORD - b % WORD)) % WORD

/-- The fields of `struct Eipdebuginfo` that `mon_backtrace` uses. A `char *`
is `none` when null, otherwise the characters it points to. -/
structure Eipdebuginfo where
  eip_file : Option String
  eip_line : Int
  eip_fn_name : Option String
  eip_fn_namelen : Int
  eip_fn_addr : Nat
deriving DecidableEq, Repr

/-- The record after `memset(&info, 0, sizeof(struct Eipdebuginfo))`. -/
def Eipdebuginfo.zero : Eipdebuginfo :=
  { eip_file := none, eip_line := 0, eip_fn_name := none, eip_fn_namelen := 0,
    eip_fn_addr := 0 }

/-- What a call `debuginfo_eip(addr, &info)` leaves behind: the `int` it
returns, the record behind `&info`, and the memory. -/
structure ResolveResult where
  result : Int
  info : Eipdebuginfo
  mem : Mem

/-- The external function `debuginfo_eip`: address, record behind `&info`
before the call, memory before the call. -/
abbrev Resolver := Nat → Eipdebuginfo → Mem → ResolveResult

/-- One `cprintf` call of `mon_backtrace`, with the arguments it was given. -/
inductive Out where
  /-- The call `cprintf("Stack backtrace:\r\n")`. -/
  | header : Out
  /-- The call `cprintf("  ebp %08x  eip %08x  args %08x %08x %08x %08x %08x\r\n", ...)`. -/
  | frame (ebp eip a1 a2 a3 a4 a5 : Nat) : Out
  /-- The call `cprintf("failed to get debuginfo for eip %x.\r\n", ...)`. -/
  | failed (eip : Nat) : Out
  /-- The call `cprintf("\t%s:%d: %.*s+%u\r\n", ...)`. -/
  | resolved (file : Option String) (line : Int) (namelen : Int)
      (name : Option String) (off : Nat) : Out
deriving DecidableEq, Repr

/-- State of the loop of `mon_backtrace`: the local `ebp`, the memory, the text
printed so far, and two logs kept for the proofs: the addresses passed to
`debuginfo_eip` and the addresses loaded from memory, both in the order in
which the source text names them. -/
structure BtState where
  ebp : Nat
  mem : Mem
  out : List Out
  calls : List Nat
  reads : List Nat

/-! ## `mon_backtrace` -/

/-- One iteration of the body of `while (ebp) { ... }`. -/
def backtraceBody (res : Resolver) (s : BtState) : BtState :=
  let p := s.ebp
  let m := s.mem
  -- cprintf("  ebp %08x  eip %08x  args ...", ebp, ebp[1], ..., ebp[6]);
  let raw := Out.frame p (load32 m (p + 4)) (load32 m (p + 8)) (load32 m (p + 12))
    (load32 m (p + 16)) (load32 m (p + 20)) (load32 m (p + 24))
  -- memset(&info, 0, sizeof(struct Eipdebuginfo));
  let info := Eipdebuginfo.zero
  -- result = debuginfo_eip(ebp[1], &info);
  let eip := load32 m (p + 4)
  let r := res eip info m
  -- if (0 != result) cprintf("failed ...", ebp[1]);
  -- else cprintf("\t%s:%d: %.*s+%u\r\n", ..., ebp[1] - info.eip_fn_addr);
  let loc :=
    if r.result ≠ 0 then Out.failed (load32 r.mem (p + 4))
    else Out.resolved r.info.eip_file r.info.eip_line r.info.eip_fn_namelen
      r.info.eip_fn_name (sub32 (load32 r.mem (p + 4)) r.info.eip_fn_addr)
  -- ebp = (uint32_t *)*ebp;
  { ebp := load32 r.mem p
    mem := r.mem
    out := s.out ++ [raw, loc]
    calls := s.calls ++ [eip]
    reads := s.reads ++ [p + 4, p + 8, p + 12, p + 16, p + 20, p + 24, p + 4, p + 4, p] }

/-- The loop `while (ebp) { ... }` run for at most `fuel` iterations. -/
def backtraceLoop (res : Resolver) : Nat → BtState → BtState
  | 0, s => s
  | fuel + 1, s => if s.ebp = 0 then s else backtraceLoop res fuel (backtraceBody res s)

/-- What a finished call of `mon_backtrace` leaves: its return value, the text
printed, the memory, and the two logs. -/
structure BtResult where
  status : Int
  out : List Out
  mem : Mem
  calls : List Nat
  reads : List Nat

/-- The state in which the loop of `mon_backtrace` is entered:
`ebp = read_ebp()` and the header has been printed. -/
def backtraceInit (m : Mem) (ebp0 : Nat) : BtState :=
  { ebp := ebp0, mem := m, out := [Out.header], calls := [], reads := [] }

/-- The function `mon_backtrace(argc, argv, tf)`, started with memory `m` and
the 32-bit value `ebp0` in the frame pointer register. It is `none` when the
loop has not been left after `fuel` iterations. -/
def mon_backtrace (res : Resolver) (fuel : Nat) (argc : Int) (argv : List String)
    (tf : Nat) (m : Mem) (ebp0 : Nat) : Option BtResult :=
  let s := backtraceLoop res fuel (backtraceInit m ebp0)
  if s.ebp = 0 then
    some { status := 0, out := s.out, mem := s.mem, calls := s.calls, reads := s.reads }
  else none

/-! ## Vocabulary of the properties -/

/-- The resolver leaves memory as it found it. -/
def Resolver.Pure (res : Resolver) : Prop :=
  ∀ a i m, (res a i m).mem = m

/-- The frame pointer reached from `p` by following the saved frame pointer
link (the word at the frame pointer) `n` times. -/
def linkAt (m : Mem) : Nat → Nat → Nat
  | 0, p => p
  | n + 1, p => linkAt m n (load32 m p)

/-- The list `fs` is the chain of frames from `p`: each frame pointer is not
null, each next one is the word stored at the one before, and the word stored
at the last one is null. -/
def IsChain (m : Mem) : Nat → List Nat → Prop
  | p, [] => p = 0
  | p, f :: fs => p ≠ 0 ∧ f = p ∧ IsChain m (load32 m p) fs

instance IsChain.decide (m : Mem) : ∀ p fs, Decidable (IsChain m p fs)
  | p, [] => inferInstanceAs (Decidable (p = 0))
  | p, f :: fs =>
    have := IsChain.decide m (load32 m p) fs
    inferInstanceAs (Decidable (p ≠ 0 ∧ f = p ∧ IsChain m (load32 m p) fs))

/-- The frame pointers reported by the raw-frame records of an output. -/
def framePtrs : List Out → List Nat
  | [] => []
  | Out.frame p _ _ _ _ _ _ :: os => p :: framePtrs os
  | _ :: os => framePtrs os

/-- The raw-frame records of an output, in order. -/
def rawRecords : List Out → List Out
  | [] => []
  | Out.frame p r a1 a2 a3 a4 a5 :: os => Out.frame p r a1 a2 a3 a4 a5 :: rawRecords os
  | _ :: os => rawRecords os

/-- A memory with the `uint32_t` value `v` stored at byte address `a`. -/
def store32 (m : Mem) (a v : Nat) : Mem := fun b =>
  if b = a % WORD then v % 256
  else if b = (a + 1) % WORD then v / 256 % 256
  else if b = (a + 2) % WORD then v / 65536 % 256
  else if b = (a + 3) % WORD then v / 16777216 % 256
  else m b

/-- A frame at `p` with saved frame pointer `link`, return address `ret` and
one value in each of the five argument slots. -/
def storeFrame (m : Mem) (p link ret a1 a2 a3 a4 a5 : Nat) : Mem :=
  store32 (store32 (store32 (store32 (store32 (store32 (store32 m
    (p + 24) a5) (p + 20) a4) (p + 16) a3) (p + 12) a2) (p + 8) a1) (p + 4) ret) p link

/-- Example memory: three frames `0x1000 -> 0x2000 -> 0x3000 -> null`. -/
def mem3 : Mem :=
  storeFrame (storeFrame (storeFrame (fun _ => 0)
    0x3000 0 0xf0100040 31 32 33 34 35)
    0x2000 0x3000 0x1010 21 22 23 24 25)
    0x1000 0x2000 0xf0100900 11 12 13 14 15

/-- Example resolver: knows `foo` of `x.c` at `0x1000 .. 0x1fff`, and `i386_init`
at `0xf0100000 .. 0xf01000ff`; fails elsewhere. Leaves memory alone. -/
def res3 : Resolver := fun a _ m =>
  if 0x1000 ≤ a ∧ a < 0x2000 then
    { result := 0, mem := m,
      info := { eip_file := some "x.c", eip_line := 42, eip_fn_name := some "foo",
                eip_fn_namelen := 3, eip_fn_addr := 0x1000 } }
  else if 0xf0100000 ≤ a ∧ a < 0xf0100100 then
    { result := 0, mem := m,
      info := { eip_file := some "kern/init.c", eip_line := 24,
                eip_fn_name := some "i386_init:F(0,1)", eip_fn_namelen := 9,
                eip_fn_addr := 0xf0100000 } }
  else { result := -1, mem := m, info := Eipdebuginfo.zero }

/-- The frame pointers met by following the link `n` times from `p`. -/
def chainOf (m : Mem) : Nat → Nat → List Nat
  | 0, _ => []
  | n + 1, p => p :: chainOf m n (load32 m p)

/-- The raw-frame record of the frame at `p`, read from memory `m`. -/
def rawLine (m : Mem) (p : Nat) : Out :=
  Out.frame p (load32 m (p + 4)) (load32 m (p + 8)) (load32 m (p + 12))
    (load32 m (p + 16)) (load32 m (p + 20)) (load32 m (p + 24))

/-- The location record of a frame with return address `eip`, given what the
resolver answered for it. -/
def locLine (r : ResolveResult) (eip : Nat) : Out :=
  if r.result ≠ 0 then Out.failed eip
  else Out.resolved r.info.eip_file r.info.eip_line r.info.eip_fn_namelen
    r.info.eip_fn_name (sub32 eip r.info.eip_fn_addr)

/-- The two records printed for each frame of a list of frame pointers, read
from a fixed memory `m`: the raw-frame record and the location record. -/
def frameLines (res : Resolver) (m : Mem) : List Nat → List Out
  | [] => []
  | p :: ps =>
    rawLine m p
      :: locLine (res (load32 m (p + 4)) Eipdebuginfo.zero m) (load32 m (p + 4))
      :: frameLines res m ps

/-- The addresses loaded while the frames of a list are visited. -/
def frameReads : List Nat → List Nat
  | [] => []
  | p :: ps =>
    [p + 4, p + 8, p + 12, p + 16, p + 20, p + 24, p + 4, p + 4, p] ++ frameReads ps

/-- Example resolver that finds a location for every address. -/
def resAll : Resolver := fun a _ m =>
  { result := 0, mem := m,
    info := { eip_file := some "x.c", eip_line := 42, eip_fn_name := some "foo",
              eip_fn_namelen := 3, eip_fn_addr := a - a % 4096 } }

/-- The resolver leaves the return address word and the link word of the
frame it is called for as it found them. -/
def Resolver.KeepsFrame (res : Resolver) : Prop :=
  ∀ (m : Mem) (p : Nat),
    load32 (res (load32 m (p + 4)) Eipdebuginfo.zero m).mem (p + 4) = load32 m (p + 4) ∧
    load32 (res (load32 m (p + 4)) Eipdebuginfo.zero m).mem p = load32 m p

/-- The loop body as the specification designs it: the return address, the
five argument words and the link of the frame are captured in locals before
the resolver is called, and only the captured values are used afterwards. -/
def backtraceBodySnapshot (res : Resolver) (s : BtState) : BtState :=
  let p := s.ebp
  let m := s.mem
  let eip := load32 m (p + 4)
  let a1 := load32 m (p + 8)
  let a2 := load32 m (p + 12)
  let a3 := load32 m (p + 16)
  let a4 := load32 m (p + 20)
  let a5 := load32 m (p + 24)
  let link := load32 m p
  let r := res eip Eipdebuginfo.zero m
  let loc :=
    if r.result ≠ 0 then Out.failed eip
    else Out.resolved r.info.eip_file r.info.eip_line r.info.eip_fn_namelen
      r.info.eip_fn_name (sub32 eip r.info.eip_fn_addr)
  { ebp := link
    mem := r.mem
    out := s.out ++ [Out.frame p eip a1 a2 a3 a4 a5, loc]
    calls := s.calls ++ [eip]
    reads := s.reads ++ [p + 4, p + 8, p + 12, p + 16, p + 20, p + 24, p] }

/-- The loop of the walk over pre-call snapshots, for at most `fuel` frames. -/
def backtraceLoopSnapshot (res : Resolver) : Nat → BtState → BtState
  | 0, s => s
  | fuel + 1, s =>
    if s.ebp = 0 then s else backtraceLoopSnapshot res fuel (backtraceBodySnapshot res s)

/-- The walk over pre-call snapshots, with the interface of `mon_backtrace`. -/
def mon_backtrace_snapshot (res : Resolver) (fuel : Nat) (argc : Int) (argv : List String)
    (tf : Nat) (m : Mem) (ebp0 : Nat) : Option BtResult :=
  let s := backtraceLoopSnapshot res fuel (backtraceInit m ebp0)
  if s.ebp = 0 then
    some { status := 0, out := s.out, mem := s.mem, calls := s.calls, reads := s.reads }
  else none

/-- Example resolver that fails and, while it runs, overwrites the link word
at `0x1000` with null and the return address word at `0x1004`. -/
def resClobber : Resolver := fun _ _ m =>
  { result := -1, info := Eipdebuginfo.zero,
    mem := store32 (store32 m 0x1000 0) 0x1004 0xdeadbeef }

/-- Example memory: one frame at `0x1000` whose link word is its own address. -/
def memSelf : Mem :=
  storeFrame (fun _ => 0) 0x1000 0x1000 0xf0100040 1 2 3 4 5

/-! ## Text written by `cprintf` -/

/-- The character NUL, which ends a C string. -/
def NUL : Char := Char.ofNat 0

/-- The lowercase digits of bases up to 16. -/
def digitChars : List Char := "0123456789abcdef".toList

/-- Modelled from the spec: the formatter behind `cprintf` is not in
`kern/monitor.c`; this is the character it writes for the digit `d`. -/
def digitChar (d : Nat) : Char := digitChars.getD d '?'

/-- Modelled from the spec: the formatter behind `cprintf` is not in
`kern/monitor.c`; these are the digits of `n` in base `base`, least significant
first, without leading zeros (one digit for 0), for numbers of at most `fuel`
digits. -/
def digitsRev (base : Nat) : Nat → Nat → List Char
  | 0, _ => []
  | fuel + 1, n =>
    digitChar (n % base) :: (if n < base then [] else digitsRev base fuel (n / base))

/-- Modelled from the spec: the formatter behind `cprintf` is not in
`kern/monitor.c`; this is an unsigned number in base `base`, most significant
digit first, padded on the left with `pad` up to `width` characters. The
numbers printed have at most 64 bits. -/
def fmtNum (base width : Nat) (pad : Char) (n : Nat) : List Char :=
  List.replicate (width - (digitsRev base 64 n).length) pad ++ (digitsRev base 64 n).reverse

/-- Modelled from the spec: the conversion `%08x` of `cprintf`, applied to an
`unsigned int` argument: fixed-width hexadecimal, padded with zeros. -/
def fmt08x (w : Nat) : List Char := fmtNum 16 8 '0' (w % WORD)

/-- Modelled from the spec: the conversion `%x` of `cprintf`. -/
def fmtx (w : Nat) : List Char := fmtNum 16 0 ' ' (w % WORD)

/-- Modelled from the spec: the conversion `%u` of `cprintf`. -/
def fmtu (w : Nat) : List Char := fmtNum 10 0 ' ' (w % WORD)

/-- Modelled from the spec: the conversion `%d` of `cprintf`. -/
def fmtd (v : Int) : List Char :=
  if v < 0 then '-' :: fmtNum 10 0 ' ' v.natAbs else fmtNum 10 0 ' ' v.natAbs

/-- The characters of the C string behind a `char *`: those before the first
NUL. A null pointer is written as `(null)`. -/
def cstr (p : Option String) : List Char :=
  match p with
  | none => "(null)".toList
  | some s => s.toList.takeWhile (fun c => c ≠ NUL)

/-- Modelled from the spec: the conversion `%s` of `cprintf`. -/
def fmts (p : Option String) : List Char := cstr p

/-- Modelled from the spec: the conversion `%.*s` of `cprintf`, which takes an
`int` length and a `char *`: the characters of the string, but no more than
the length given (a negative length sets no limit). -/
def fmtPrecS (prec : Int) (p : Option String) : List Char :=
  if prec < 0 then cstr p else (cstr p).take prec.toNat

/-- The text one `cprintf` call of `mon_backtrace` writes: the format string
of the call site with its conversions filled in. -/
def render : Out → List Char
  | Out.header => "Stack backtrace:\r\n".toList
  | Out.frame ebp eip a1 a2 a3 a4 a5 =>
    "  ebp ".toList ++ fmt08x ebp ++ "  eip ".toList ++ fmt08x eip ++ "  args ".toList
      ++ fmt08x a1 ++ " ".toList ++ fmt08x a2 ++ " ".toList ++ fmt08x a3 ++ " ".toList
      ++ fmt08x a4 ++ " ".toList ++ fmt08x a5 ++ "\r\n".toList
  | Out.failed eip =>
    "failed to get debuginfo for eip ".toList ++ fmtx eip ++ ".\r\n".toList
  | Out.resolved file line namelen name off =>
    "\t".toList ++ fmts file ++ ":".toList ++ fmtd line ++ ": ".toList
      ++ fmtPrecS namelen name ++ "+".toList ++ fmtu off ++ "\r\n".toList

/-- The value of a hexadecimal digit. -/
def hexVal (c : Char) : Nat :=
  if '0' ≤ c ∧ c ≤ '9' then c.toNat - 48
  else if 'a' ≤ c ∧ c ≤ 'f' then c.toNat - 87
  else 0

/-- The number written by a string of hexadecimal digits. -/
def parseHex (cs : List Char) : Nat :=
  cs.foldl (fun acc c => 16 * acc + hexVal c) 0

/-- The number written by hexadecimal digits given least significant first. -/
def valRev : List Char → Nat
  | [] => 0
  | c :: cs => hexVal c + 16 * valRev cs

/-! ## The command interpreter -/

/-- The functions of `kern/monitor.c` that have the type of a command:
`int (*)(int argc, char **argv, struct Trapframe *tf)`. -/
inductive MonFn where
  | mon_help : MonFn
  | mon_kerninfo : MonFn
  | mon_backtrace : MonFn
deriving DecidableEq, Repr

/-- The record `struct Command`; `func` returns -1 to force the monitor to
exit. -/
structure Command where
  name : String
  desc : String
  func : MonFn
deriving DecidableEq, Repr

/-- The table `commands`. -/
def commands : List Command :=
  [ { name := "help", desc := "Display this list of commands", func := MonFn.mon_help },
    { name := "kerninfo", desc := "Display information about the kernel",
      func := MonFn.mon_kerninfo } ]

/-- One `cprintf` call of the monitor, with the arguments it was given, or a
record printed by a function the monitor calls. -/
inductive MonOut where
  /-- The call `cprintf("%s - %s\n", ...)` of `mon_help`. -/
  | helpLine (name desc : String) : MonOut
  /-- The call `cprintf("Special kernel symbols:\n")`. -/
  | kernSymbols : MonOut
  /-- The call `cprintf("  _start                  %08x (phys)\n", ...)`. -/
  | kernStart (phys : Nat) : MonOut
  /-- The call `cprintf("  entry  %08x (virt)  %08x (phys)\n", ...)`. -/
  | kernEntry (virt phys : Nat) : MonOut
  /-- The call `cprintf("  etext  %08x (virt)  %08x (phys)\n", ...)`. -/
  | kernEtext (virt phys : Nat) : MonOut
  /-- The call `cprintf("  edata  %08x (virt)  %08x (phys)\n", ...)`. -/
  | kernEdata (virt phys : Nat) : MonOut
  /-- The call `cprintf("  end    %08x (virt)  %08x (phys)\n", ...)`. -/
  | kernEnd (virt phys : Nat) : MonOut
  /-- The call `cprintf("Kernel executable memory footprint: %dKB\n", ...)`. -/
  | kernFootprint (kb : Int) : MonOut
  /-- A record printed by `mon_backtrace`. -/
  | backtrace (o : Out) : MonOut
  /-- The call `cprintf("Too many arguments (max %d)\n", MAXARGS)`. -/
  | tooMany (max : Int) : MonOut
  /-- The call `cprintf("Unknown command '%s'\n", argv[0])`. -/
  | unknown (arg : List Char) : MonOut
  /-- The call `cprintf("Welcome to the JOS kernel monitor!\n")`. -/
  | welcome : MonOut
  /-- The call `cprintf("Type 'help' for a list of commands.\n")`. -/
  | typeHelp : MonOut
  /-- The call `print_trapframe(tf)`. -/
  | trapframe (tf : Nat) : MonOut
deriving DecidableEq, Repr

/-- What is not defined in `kern/monitor.c` and the commands use: the linker
symbols `_start`, `entry`, `etext`, `edata`, `end`, the constant `KERNBASE`, the
macro `ROUNDUP`, and for `mon_backtrace` the function `debuginfo_eip` and the
value `read_ebp()` gives. -/
structure Kernel where
  _start : Nat
  entry : Nat
  etext : Nat
  edata : Nat
  end_ : Nat
  KERNBASE : Nat
  ROUNDUP : Int → Int → Int
  debuginfo_eip : Resolver
  ebp : Nat

/-- What a command leaves: its return value, the text printed, the memory. -/
structure CmdResult where
  ret : Int
  out : List MonOut
  mem : Mem

/-- The command `mon_help`: one line for each entry of `commands`; returns 0. -/
def mon_help (argc : Int) (argv : List String) (tf : Nat) : Int × List MonOut :=
  (0, commands.map (fun c => MonOut.helpLine c.name c.desc))

/-- The value of a 32-bit word read as an `int` (two's complement). -/
def toInt32 (w : Nat) : Int :=
  if w % WORD < 2147483648 then ((w % WORD : Nat) : Int)
  else ((w % WORD : Nat) : Int) - 4294967296

/-- The command `mon_kerninfo`; returns 0. The difference `end - entry` of two
`char` pointers is a 32-bit `int`. -/
def mon_kerninfo (K : Kernel) (argc : Int) (argv : List String) (tf : Nat) :
    Int × List MonOut :=
  (0,
    [ MonOut.kernSymbols,
      MonOut.kernStart K._start,
      MonOut.kernEntry K.entry (sub32 K.entry K.KERNBASE),
      MonOut.kernEtext K.etext (sub32 K.etext K.KERNBASE),
      MonOut.kernEdata K.edata (sub32 K.edata K.KERNBASE),
      MonOut.kernEnd K.end_ (sub32 K.end_ K.KERNBASE),
      MonOut.kernFootprint
        (Int.tdiv (K.ROUNDUP (toInt32 (sub32 K.end_ K.entry)) 1024) 1024) ])

/-- A call `f(argc, argv, tf)` through a function pointer of a `Command`. -/
def callFn (K : Kernel) (fuel : Nat) (f : MonFn) (argc : Int) (argv : List String)
    (tf : Nat) (m : Mem) : Option CmdResult :=
  match f with
  | MonFn.mon_help =>
    some { ret := (mon_help argc argv tf).1, out := (mon_help argc argv tf).2, mem := m }
  | MonFn.mon_kerninfo =>
    some { ret := (mon_kerninfo K argc argv tf).1, out := (mon_kerninfo K argc argv tf).2,
           mem := m }
  | MonFn.mon_backtrace =>
    (mon_backtrace K.debuginfo_eip fuel argc argv tf m K.ebp).map
      (fun r => { ret := r.status, out := r.out.map MonOut.backtrace, mem := r.mem })

/-- The test `strchr(WHITESPACE, c)` for a character `c` other than NUL, with
`WHITESPACE` the string of tab, carriage return, newline and space. -/
def isWhitespace (c : Char) : Bool :=
  c = '\t' || c = '\r' || c = '\n' || c = ' '

/-- The constant `MAXARGS`. -/
def MAXARGS : Nat := 16

/-- The loop `while (*buf && strchr(WHITESPACE, *buf)) *buf++ = 0;`.
The buffer is the characters `pre` before the pointer `buf` followed by the
characters `rest` from `buf` on; after `rest` comes a NUL. -/
def gobble : List Char → List Char → List Char × List Char
  | pre, [] => (pre, [])
  | pre, c :: cs =>
    if c ≠ NUL ∧ isWhitespace c = true then gobble (pre ++ [NUL]) cs else (pre, c :: cs)

/-- The loop `while (*buf && !strchr(WHITESPACE, *buf)) buf++;`. -/
def scanArg : List Char → List Char → List Char × List Char
  | pre, [] => (pre, [])
  | pre, c :: cs =>
    if c ≠ NUL ∧ ¬ isWhitespace c = true then scanArg (pre ++ [c]) cs else (pre, c :: cs)

/-- The array `argv` with `argv[i] = p`; a pointer into the buffer is its
offset from the start of the buffer, `none` is the null pointer. -/
def setArg (argv : Nat → Option Nat) (i : Nat) (p : Option Nat) : Nat → Option Nat :=
  fun j => if j = i then p else argv j

/-- How the parsing loop of `runcmd` is left. -/
inductive Parse where
  /-- By `return 0` after `Too many arguments`. -/
  | tooMany (buf : List Char) (argc : Nat) (argv : Nat → Option Nat) : Parse
  /-- By `break`. -/
  | done (buf : List Char) (argc : Nat) (argv : Nat → Option Nat) : Parse

/-- The loop `while (1) { ... }` of `runcmd` that parses the buffer, run for at
most `fuel` iterations. -/
def parseArgs : Nat → List Char → List Char → Nat → (Nat → Option Nat) → Option Parse
  | 0, _, _, _, _ => none
  | fuel + 1, pre, rest, argc, argv =>
    -- gobble whitespace
    let g := gobble pre rest
    -- if (*buf == 0) break;
    if g.2.headD NUL = NUL then some (Parse.done (g.1 ++ g.2) argc argv)
    -- if (argc == MAXARGS-1) { cprintf(...); return 0; }
    else if argc = MAXARGS - 1 then some (Parse.tooMany (g.1 ++ g.2) argc argv)
    else
      -- argv[argc++] = buf;
      let argv1 := setArg argv argc (some g.1.length)
      -- scan past next arg
      let a := scanArg g.1 g.2
      parseArgs fuel a.1 a.2 (argc + 1) argv1

/-- The C string at a pointer into the buffer: the characters from there up
to the first NUL. -/
def argStr (buf : List Char) (p : Option Nat) : List Char :=
  match p with
  | none => []
  | some i => (buf.drop i).takeWhile (fun c => c ≠ NUL)

/-- The strings `argv[0]`, ..., `argv[argc - 1]`. -/
def argStrings (buf : List Char) (argc : Nat) (argv : Nat → Option Nat) :
    List (List Char) :=
  (List.range argc).map (fun i => argStr buf (argv i))

/-- The loop `for (i = 0; i < ARRAY_SIZE(commands); i++)` of `runcmd`: the first
entry of the table with `strcmp(argv[0], commands[i].name) == 0`. -/
def lookupCommand : List Command → List Char → Option Command
  | [], _ => none
  | c :: cs, arg0 =>
    if arg0 = c.name.toList.takeWhile (fun x => x ≠ NUL) then some c
    else lookupCommand cs arg0

/-- What a call of `runcmd` leaves: its return value, the text printed, the
memory, the buffer, `argc` and `argv` as they are at the return, and the
function called through the table, if one was. -/
structure RunResult where
  ret : Int
  out : List MonOut
  mem : Mem
  buf : List Char
  argc : Nat
  argv : Nat → Option Nat
  called : Option MonFn

/-- The function `runcmd(buf, tf)` over a table of commands. The local array
`argv` holds `argv0` at entry. The result is `none` when a loop has not been
left after `fuel` iterations. -/
def runcmdWith (cmds : List Command) (K : Kernel) (fuel : Nat) (buf : List Char)
    (tf : Nat) (argv0 : Nat → Option Nat) (m : Mem) : Option RunResult :=
  -- argc = 0; argv[argc] = 0;
  match parseArgs fuel [] buf 0 (setArg argv0 0 none) with
  | none => none
  | some (Parse.tooMany b argc argv) =>
    some { ret := 0, out := [MonOut.tooMany MAXARGS], mem := m, buf := b, argc := argc,
           argv := argv, called := none }
  | some (Parse.done b argc argv1) =>
    -- argv[argc] = 0;
    let argv := setArg argv1 argc none
    if argc = 0 then
      some { ret := 0, out := [], mem := m, buf := b, argc := argc, argv := argv,
             called := none }
    else
      match lookupCommand cmds (argStr b (argv 0)) with
      | some c =>
        (callFn K fuel c.func argc ((argStrings b argc argv).map String.mk) tf m).map
          (fun r => { ret := r.ret, out := r.out, mem := r.mem, buf := b, argc := argc,
                      argv := argv, called := some c.func })
      | none =>
        some { ret := 0, out := [MonOut.unknown (argStr b (argv 0))], mem := m, buf := b,
               argc := argc, argv := argv, called := none }

/-- The function `runcmd(buf, tf)`. -/
def runcmd (K : Kernel) (fuel : Nat) (buf : List Char) (tf : Nat)
    (argv0 : Nat → Option Nat) (m : Mem) : Option RunResult :=
  runcmdWith commands K fuel buf tf argv0 m

/-- What the monitor has done with the lines read so far: whether it has left
its loop, the text printed, the memory, and the lines not read. -/
structure MonitorResult where
  exited : Bool
  out : List MonOut
  mem : Mem
  unread : List (Option (List Char))

/-- The loop `while (1) { buf = readline("K> "); ... }` of `monitor` over the
lines `readline` gives, `none` being a null pointer. -/
def monitorLoop (K : Kernel) (fuel : Nat) (tf : Nat) (argv0 : Nat → Option Nat) :
    List (Option (List Char)) → List MonOut → Mem → Option MonitorResult
  | [], out, m => some { exited := false, out := out, mem := m, unread := [] }
  | none :: rest, out, m => monitorLoop K fuel tf argv0 rest out m
  | some buf :: rest, out, m =>
    match runcmd K fuel buf tf argv0 m with
    | none => none
    | some r =>
      -- if (runcmd(buf, tf) < 0) break;
      if r.ret < 0 then
        some { exited := true, out := out ++ r.out, mem := r.mem, unread := rest }
      else monitorLoop K fuel tf argv0 rest (out ++ r.out) r.mem

/-- The function `monitor(tf)` over the lines `readline` gives. -/
def monitor (K : Kernel) (fuel : Nat) (tf : Nat) (argv0 : Nat → Option Nat)
    (lines : List (Option (List Char))) (m : Mem) : Option MonitorResult :=
  monitorLoop K fuel tf argv0 lines
    ([MonOut.welcome, MonOut.typeHelp] ++ (if tf ≠ 0 then [MonOut.trapframe tf] else [])) m

/-- The tokens of a command line: the maximal runs of characters that are not
whitespace, among the characters before the first NUL. -/
def wsTokens (buf : List Char) : List (List Char) :=
  ((buf.takeWhile (fun c => c ≠ NUL)).splitOnP isWhitespace).filter (fun t => !t.isEmpty)

/-- Example kernel: the symbols of a small kernel image, with the resolver
`res3` and the frame pointer of the three-frame example. -/
def kern3 : Kernel :=
  { _start := 0x0010000c, entry := 0xf010000c, etext := 0xf0101a75, edata := 0xf0112300,
    end_ := 0xf0112960, KERNBASE := 0xf0000000,
    ROUNDUP := fun a n => toInt32 (((a % 4294967296 + n - 1) / n * n).toNat),
    debuginfo_eip := res3, ebp := 0x1000 }

/-- Example table: the table `commands` with an entry for `mon_backtrace`. -/
def commandsBt : List Command :=
  commands ++ [ { name := "backtrace", desc := "Display the stack backtrace",
                  func := MonFn.mon_backtrace } ]

/-- Example command line with 16 tokens. -/
def line16 : List Char := "help 2 3 4 5 6 7 8 9 10 11 12 13 14 15 16".toList

/-- Example command line with 15 tokens. -/
def line15 : List Char := "help 2 3 4 5 6 7 8 9 10 11 12 13 14 15".toList

/-- Example command line with 17 tokens whose first token is `kerninfo`. -/
def line17k : List Char := "kerninfo 2 3 4 5 6 7 8 9 10 11 12 13 14 15 16 17".toList

/-- Example command line with three tokens and whitespace of all four kinds. -/
def lineHelp : List Char := "  help  me\tplease \r\n".toList

/-! ## Basic facts -/

theorem load32_lt (m : Mem) (a : Nat) : load32 m a < WORD := by
  unfold load32 WORD
  omega

theorem sub32_lt (a b : Nat) : sub32 a b < WORD := by
  unfold sub32
  exact Nat.mod_lt _ (by decide)

theorem backtraceBody_mem (res : Resolver) (hp : res.Pure) (s : BtState) :
    (backtraceBody res s).mem = s.mem := by
  simp [backtraceBody, hp _ _ _]

theorem backtraceBody_ebp (res : Resolver) (hp : res.Pure) (s : BtState) :
    (backtraceBody res s).ebp = load32 s.mem s.ebp := by
  simp [backtraceBody, hp _ _ _]

theorem backtraceLoop_mem (res : Resolver) (hp : res.Pure) :
    ∀ (fuel : Nat) (s : BtState), (backtraceLoop res fuel s).mem = s.mem := by
  intro fuel
  induction fuel with
  | zero => intro s; rfl
  | succ n ih =>
    intro s
    by_cases h : s.ebp = 0
    · simp [backtraceLoop, h]
    · simp [backtraceLoop, h, ih, backtraceBody_mem res hp]

theorem backtraceLoop_ebp (res : Resolver) (hp : res.Pure) :
    ∀ (fuel : Nat) (s : BtState),
      (backtraceLoop res fuel s).ebp = 0 ↔ ∃ n, n ≤ fuel ∧ linkAt s.mem n s.ebp = 0 := by
  intro fuel
  induction fuel with
  | zero =>
    intro s
    constructor
    · intro h; exact ⟨0, le_refl _, h⟩
    · rintro ⟨n, hn, h⟩
      obtain rfl : n = 0 := by omega
      exact h
  | succ k ih =>
    intro s
    by_cases h : s.ebp = 0
    · simp only [backtraceLoop, h, if_true]
      constructor
      · intro _; exact ⟨0, Nat.zero_le _, by simp [linkAt, h]⟩
      · intro _; trivial
    · simp only [backtraceLoop, h, if_false]
      rw [ih, backtraceBody_mem res hp, backtraceBody_ebp res hp]
      constructor
      · rintro ⟨n, hn, hl⟩
        exact ⟨n + 1, by omega, hl⟩
      · rintro ⟨n, hn, hl⟩
        cases n with
        | zero => exact absurd hl h
        | succ j => exact ⟨j, by omega, hl⟩

theorem backtraceLoop_chain (res : Resolver) (hp : res.Pure) (m : Mem) :
    ∀ (fs : List Nat) (p : Nat) (out : List Out) (calls reads : List Nat) (fuel : Nat),
      IsChain m p fs → fs.length ≤ fuel →
      backtraceLoop res fuel
          { ebp := p, mem := m, out := out, calls := calls, reads := reads }
        = { ebp := 0, mem := m, out := out ++ frameLines res m fs,
            calls := calls ++ fs.map (fun q => load32 m (q + 4)),
            reads := reads ++ frameReads fs } := by
  intro fs
  induction fs with
  | nil =>
    intro p out calls reads fuel hc _
    have hp0 : p = 0 := hc
    subst hp0
    cases fuel <;> simp [backtraceLoop, frameLines, frameReads]
  | cons f fs ih =>
    intro p out calls reads fuel hc hf
    obtain ⟨hne, hfp, hrest⟩ := hc
    subst hfp
    cases fuel with
    | zero => simp at hf
    | succ k =>
      have hk : fs.length ≤ k := by simpa using hf
      have hm : ∀ a, (res a Eipdebuginfo.zero m).mem = m := fun a => hp a _ m
      simp only [backtraceLoop, hne, if_false, backtraceBody, hm]
      rw [ih _ _ _ _ k hrest hk]
      simp [frameLines, frameReads, hm, rawLine, locLine]

theorem backtraceLoop_run (res : Resolver) (hp : res.Pure) (m : Mem) :
    ∀ (fuel : Nat) (p : Nat) (out : List Out) (calls reads : List Nat),
      (∀ n, n < fuel → linkAt m n p ≠ 0) →
      backtraceLoop res fuel
          { ebp := p, mem := m, out := out, calls := calls, reads := reads }
        = { ebp := linkAt m fuel p, mem := m,
            out := out ++ frameLines res m (chainOf m fuel p),
            calls := calls ++ (chainOf m fuel p).map (fun q => load32 m (q + 4)),
            reads := reads ++ frameReads (chainOf m fuel p) } := by
  intro fuel
  induction fuel with
  | zero =>
    intro p out calls reads _
    simp [backtraceLoop, linkAt, chainOf, frameLines, frameReads]
  | succ k ih =>
    intro p out calls reads h
    have hne : p ≠ 0 := h 0 (Nat.succ_pos k)
    have hrest : ∀ n, n < k → linkAt m n (load32 m p) ≠ 0 :=
      fun n hn => h (n + 1) (Nat.succ_lt_succ hn)
    have hm : ∀ a, (res a Eipdebuginfo.zero m).mem = m := fun a => hp a _ m
    simp only [backtraceLoop, hne, if_false, backtraceBody, hm]
    rw [ih _ _ _ _ hrest]
    simp [frameLines, frameReads, chainOf, linkAt, rawLine, locLine]

theorem chainOf_length (m : Mem) : ∀ (n p : Nat), (chainOf m n p).length = n := by
  intro n
  induction n with
  | zero => intro p; rfl
  | succ k ih => intro p; simp [chainOf, ih]

theorem chainOf_isChain (m : Mem) :
    ∀ (n p : Nat), (∀ k, k < n → linkAt m k p ≠ 0) → linkAt m n p = 0 →
      IsChain m p (chainOf m n p) := by
  intro n
  induction n with
  | zero => intro p _ h0; exact h0
  | succ k ih =>
    intro p hne h0
    exact ⟨hne 0 (Nat.succ_pos k), rfl,
      ih (load32 m p) (fun j hj => hne (j + 1) (Nat.succ_lt_succ hj)) h0⟩

theorem isChain_linkAt (m : Mem) :
    ∀ (fs : List Nat) (p : Nat), IsChain m p fs →
      (∀ k, k < fs.length → linkAt m k p ≠ 0) ∧ linkAt m fs.length p = 0 := by
  intro fs
  induction fs with
  | nil => intro p h; exact ⟨fun k hk => absurd hk (Nat.not_lt_zero k), h⟩
  | cons f fs ih =>
    intro p h
    obtain ⟨hne, _, hrest⟩ := h
    obtain ⟨h1, h2⟩ := ih _ hrest
    refine ⟨?_, h2⟩
    intro k hk
    cases k with
    | zero => exact hne
    | succ j => exact h1 j (by simpa using hk)

theorem isChain_next (m : Mem) :
    ∀ (fs : List Nat) (p : Nat), IsChain m p fs → ∀ (k q : Nat), fs[k]? = some q →
      fs[k + 1]? = if load32 m q = 0 then none else some (load32 m q) := by
  intro fs
  induction fs with
  | nil => intro p _ k q h; simp at h
  | cons f fs ih =>
    intro p h k q hk
    obtain ⟨_, hfp, hrest⟩ := h
    subst hfp
    cases k with
    | zero =>
      simp at hk
      subst hk
      cases fs with
      | nil =>
        have h0 : load32 m f = 0 := hrest
        simp [h0]
      | cons g gs =>
        obtain ⟨hne, hg, _⟩ := hrest
        subst hg
        simp [hne]
    | succ j =>
      have hj : fs[j]? = some q := by simpa using hk
      simpa using ih _ hrest j q hj

theorem frameLines_length (res : Resolver) (m : Mem) :
    ∀ fs : List Nat, (frameLines res m fs).length = 2 * fs.length := by
  intro fs
  induction fs with
  | nil => rfl
  | cons f fs ih => simp [frameLines, ih]; omega

theorem frameLines_get (res : Resolver) (m : Mem) :
    ∀ (fs : List Nat) (k p : Nat), fs[k]? = some p →
      (frameLines res m fs)[2 * k]? = some (rawLine m p) ∧
      (frameLines res m fs)[2 * k + 1]?
        = some (locLine (res (load32 m (p + 4)) Eipdebuginfo.zero m) (load32 m (p + 4))) := by
  intro fs
  induction fs with
  | nil => intro k p h; simp at h
  | cons f fs ih =>
    intro k p h
    cases k with
    | zero =>
      simp at h
      subst h
      simp [frameLines]
    | succ j =>
      have hj : fs[j]? = some p := by simpa using h
      obtain ⟨h1, h2⟩ := ih j p hj
      have e1 : 2 * (j + 1) = (2 * j) + 1 + 1 := by omega
      rw [e1]
      simp only [frameLines, List.getElem?_cons_succ]
      exact ⟨h1, h2⟩

theorem locLine_not_frame (r : ResolveResult) (eip : Nat) (os : List Out) :
    framePtrs (locLine r eip :: os) = framePtrs os ∧
    rawRecords (locLine r eip :: os) = rawRecords os := by
  unfold locLine
  split_ifs <;> simp [framePtrs, rawRecords]

theorem framePtrs_frameLines (res : Resolver) (m : Mem) :
    ∀ fs : List Nat, framePtrs (frameLines res m fs) = fs := by
  intro fs
  induction fs with
  | nil => rfl
  | cons f fs ih =>
    simp only [frameLines, rawLine, framePtrs]
    rw [(locLine_not_frame _ _ _).1, ih]

theorem rawRecords_frameLines (res : Resolver) (m : Mem) :
    ∀ fs : List Nat, rawRecords (frameLines res m fs) = fs.map (rawLine m) := by
  intro fs
  induction fs with
  | nil => rfl
  | cons f fs ih =>
    simp only [frameLines, rawLine, rawRecords, List.map_cons]
    rw [(locLine_not_frame _ _ _).2, ih]

/-- On a null-terminated chain and with a resolver that leaves memory alone,
`mon_backtrace` returns as soon as the fuel covers the chain, and this is
everything it leaves behind. -/
theorem mon_backtrace_chain (res : Resolver) (hp : res.Pure) (argc : Int)
    (argv : List String) (tf : Nat) (m : Mem) (p : Nat) (fs : List Nat) (fuel : Nat)
    (hc : IsChain m p fs) (hf : fs.length ≤ fuel) :
    mon_backtrace res fuel argc argv tf m p
      = some { status := 0, out := Out.header :: frameLines res m fs, mem := m,
               calls := fs.map (fun q => load32 m (q + 4)),
               reads := frameReads fs } := by
  unfold mon_backtrace backtraceInit
  rw [backtraceLoop_chain res hp m fs p _ _ _ fuel hc hf]
  simp

theorem res3_pure : res3.Pure := by
  intro a i m
  unfold res3
  split_ifs <;> rfl

theorem resAll_pure : resAll.Pure := by
  intro a i m
  rfl

theorem sub32_eq_emod (a b : Nat) (ha : a < WORD) :
    ((sub32 a b : Nat) : Int) = ((a : Int) - (b : Int)) % 4294967296 := by
  unfold WORD at ha
  simp only [sub32, WORD]
  omega

theorem sub32_exact (a b : Nat) (ha : a < WORD) (hb : b ≤ a) : sub32 a b + b = a := by
  unfold WORD at ha
  simp only [sub32, WORD]
  omega

theorem keepsFrame_of_pure (res : Resolver) (hp : res.Pure) : res.KeepsFrame := by
  intro m p
  rw [hp]
  exact ⟨rfl, rfl⟩

/-- The fields of a loop state that the caller can observe: the local `ebp`,
the memory, the text printed and the resolver calls agree. -/
theorem backtraceBody_snapshot (res : Resolver) (hk : res.KeepsFrame) (s t : BtState)
    (he : s.ebp = t.ebp) (hm : s.mem = t.mem) (ho : s.out = t.out)
    (hcl : s.calls = t.calls) :
    (backtraceBody res s).ebp = (backtraceBodySnapshot res t).ebp ∧
    (backtraceBody res s).mem = (backtraceBodySnapshot res t).mem ∧
    (backtraceBody res s).out = (backtraceBodySnapshot res t).out ∧
    (backtraceBody res s).calls = (backtraceBodySnapshot res t).calls := by
  obtain ⟨h4, h0⟩ := hk t.mem t.ebp
  simp only [backtraceBody, backtraceBodySnapshot, he, hm, ho, hcl, h4, h0]
  exact ⟨trivial, trivial, trivial, trivial⟩

theorem backtraceLoop_snapshot (res : Resolver) (hk : res.KeepsFrame) :
    ∀ (fuel : Nat) (s t : BtState), s.ebp = t.ebp → s.mem = t.mem → s.out = t.out →
      s.calls = t.calls →
      (backtraceLoop res fuel s).ebp = (backtraceLoopSnapshot res fuel t).ebp ∧
      (backtraceLoop res fuel s).mem = (backtraceLoopSnapshot res fuel t).mem ∧
      (backtraceLoop res fuel s).out = (backtraceLoopSnapshot res fuel t).out ∧
      (backtraceLoop res fuel s).calls = (backtraceLoopSnapshot res fuel t).calls := by
  intro fuel
  induction fuel with
  | zero => intro s t he hm ho hcl; exact ⟨he, hm, ho, hcl⟩
  | succ k ih =>
    intro s t he hm ho hcl
    by_cases h : t.ebp = 0
    · have hs : s.ebp = 0 := he.trans h
      have e1 : backtraceLoop res (k + 1) s = s := by simp [backtraceLoop, hs]
      have e2 : backtraceLoopSnapshot res (k + 1) t = t := by
        simp [backtraceLoopSnapshot, h]
      rw [e1, e2]
      exact ⟨he, hm, ho, hcl⟩
    · have hs : s.ebp ≠ 0 := fun h0 => h (he.symm.trans h0)
      simp only [backtraceLoop, backtraceLoopSnapshot, h, hs, if_false]
      obtain ⟨b1, b2, b3, b4⟩ := backtraceBody_snapshot res hk s t he hm ho hcl
      exact ih _ _ b1 b2 b3 b4

theorem linkAt_self (m : Mem) (p : Nat) (h : load32 m p = p) :
    ∀ n, linkAt m n p = p := by
  intro n
  induction n with
  | zero => rfl
  | succ k ih => simp [linkAt, h, ih]

theorem chainOf_self (m : Mem) (p : Nat) (h : load32 m p = p) :
    ∀ n, chainOf m n p = List.replicate n p := by
  intro n
  induction n with
  | zero => rfl
  | succ k ih => simp [chainOf, h, ih, List.replicate_succ]

theorem framePtrs_header_frameLines (res : Resolver) (m : Mem) (fs : List Nat) :
    framePtrs (Out.header :: frameLines res m fs) = fs ∧
    rawRecords (Out.header :: frameLines res m fs) = fs.map (rawLine m) := by
  simp [framePtrs, rawRecords, framePtrs_frameLines, rawRecords_frameLines]

theorem mon_backtrace_isSome (res : Resolver) (hp : res.Pure) (argc : Int)
    (argv : List String) (tf : Nat) (m : Mem) (ebp0 fuel : Nat) :
    (mon_backtrace res fuel argc argv tf m ebp0).isSome = true
      ↔ ∃ n, n ≤ fuel ∧ linkAt m n ebp0 = 0 := by
  have h := backtraceLoop_ebp res hp fuel (backtraceInit m ebp0)
  simp only [backtraceInit] at h
  rw [← h]
  unfold mon_backtrace backtraceInit
  by_cases h0 : (backtraceLoop res fuel
      { ebp := ebp0, mem := m, out := [Out.header], calls := [], reads := [] }).ebp = 0
  · simp [h0]
  · simp [h0]

/-! ## The frame walk on a null-terminated chain -/

/-- C1, refuted as stated: in the three-frame example memory the link followed
from `0x1000` meets three non-null frame pointers and then null, and yet with
the resolver `resClobber`, which overwrites the link word at `0x1000` while
it runs, `mon_backtrace` returns after one frame: for no fuel does it return
with three raw-frame records, and whenever it returns it has printed one. -/
theorem mon_backtrace_depth_resolver_overwrites :
    (∀ k, k < 3 → linkAt mem3 k 0x1000 ≠ 0) ∧ linkAt mem3 3 0x1000 = 0 ∧
    (mon_backtrace resClobber 3 0 [] 0 mem3 0x1000).map
        (fun r => (rawRecords r.out).length) = some 1 ∧
    (∀ fuel r, mon_backtrace resClobber fuel 0 [] 0 mem3 0x1000 = some r →
      (rawRecords r.out).length = 1) ∧
    (¬ ∃ fuel r, mon_backtrace resClobber fuel 0 [] 0 mem3 0x1000 = some r ∧
      (rawRecords r.out).length = 3) := by
  have hstop : ∀ (n : Nat) (s : BtState), s.ebp = 0 → backtraceLoop resClobber n s = s := by
    intro n s hs
    cases n with
    | zero => rfl
    | succ k => simp [backtraceLoop, hs]
  have hone : ∀ fuel r, mon_backtrace resClobber fuel 0 [] 0 mem3 0x1000 = some r →
      (rawRecords r.out).length = 1 := by
    intro fuel r hr
    cases fuel with
    | zero =>
      have hne : ¬ (backtraceLoop resClobber 0 (backtraceInit mem3 0x1000)).ebp = 0 := by
        decide
      unfold mon_backtrace at hr
      simp [hne] at hr
    | succ k =>
      have hb : (backtraceBody resClobber (backtraceInit mem3 0x1000)).ebp = 0 := by
        decide
      have hl : backtraceLoop resClobber (k + 1) (backtraceInit mem3 0x1000)
          = backtraceBody resClobber (backtraceInit mem3 0x1000) := by
        have hne : (backtraceInit mem3 0x1000).ebp ≠ 0 := by decide
        rw [backtraceLoop, if_neg hne]
        exact hstop k _ hb
      unfold mon_backtrace at hr
      rw [hl] at hr
      simp only [hb, if_true] at hr
      rw [← Option.some.inj hr]
      decide
  refine ⟨by decide, by decide, by decide, hone, ?_⟩
  rintro ⟨fuel, r, hr, h3⟩
  rw [hone fuel r hr] at h3
  exact absurd h3 (by decide)

/-- C1, amended: for every memory, every resolver that leaves memory alone (a
pure resolver) and every `N`: if following the saved frame pointer link from
the entry frame pointer meets `N` non-null frame pointers and then null,
`mon_backtrace` returns (with any fuel of at least `N` iterations, and with
none below `N`) and has printed exactly `N` raw-frame records. -/
theorem mon_backtrace_depth_records (res : Resolver) (hp : res.Pure) (argc : Int)
    (argv : List String) (tf : Nat) (m : Mem) (ebp0 N : Nat)
    (hframes : ∀ k, k < N → linkAt m k ebp0 ≠ 0) (hnull : linkAt m N ebp0 = 0) :
    (∀ fuel, N ≤ fuel →
      ∃ r, mon_backtrace res fuel argc argv tf m ebp0 = some r ∧
        (rawRecords r.out).length = N) ∧
    (∀ fuel, fuel < N → mon_backtrace res fuel argc argv tf m ebp0 = none) := by
  constructor
  · intro fuel hfuel
    have hc := chainOf_isChain m N ebp0 hframes hnull
    have hl := chainOf_length m N ebp0
    refine ⟨_, mon_backtrace_chain res hp argc argv tf m ebp0 _ fuel hc (by omega), ?_⟩
    simp [rawRecords, rawRecords_frameLines, hl]
  · intro fuel hfuel
    have hne : (backtraceLoop res fuel (backtraceInit m ebp0)).ebp ≠ 0 := by
      intro h0
      obtain ⟨n, hn, hl⟩ := (backtraceLoop_ebp res hp fuel _).1 h0
      exact hframes n (by omega) hl
    simp [mon_backtrace, hne]

/-- Witness of the amended C1 on the three-frame example memory. -/
theorem mon_backtrace_depth_records_witness :
    res3.Pure ∧ (∀ k, k < 3 → linkAt mem3 k 0x1000 ≠ 0) ∧ linkAt mem3 3 0x1000 = 0 ∧
    ((∀ fuel, 3 ≤ fuel →
      ∃ r, mon_backtrace res3 fuel 0 [] 0 mem3 0x1000 = some r ∧
        (rawRecords r.out).length = 3) ∧
    (∀ fuel, fuel < 3 → mon_backtrace res3 fuel 0 [] 0 mem3 0x1000 = none)) :=
  ⟨res3_pure, by decide, by decide,
    mon_backtrace_depth_records res3 res3_pure 0 [] 0 mem3 0x1000 3 (by decide) (by decide)⟩

/-- C2: for every null-terminated frame chain `fs` from the entry frame pointer,
the frame pointers reported by the raw-frame records of `mon_backtrace`, in the
order printed, are exactly `fs`: innermost first, none skipped, repeated or
reordered. -/
theorem mon_backtrace_frames_in_chain_order (res : Resolver) (hp : res.Pure)
    (argc : Int) (argv : List String) (tf : Nat) (m : Mem) (ebp0 : Nat)
    (fs : List Nat) (fuel : Nat) (hc : IsChain m ebp0 fs) (hf : fs.length ≤ fuel) :
    ∃ r, mon_backtrace res fuel argc argv tf m ebp0 = some r ∧ framePtrs r.out = fs ∧
      ∀ k, k < fs.length → (framePtrs r.out)[k]? = fs[k]? := by
  refine ⟨_, mon_backtrace_chain res hp argc argv tf m ebp0 fs fuel hc hf, ?_, ?_⟩
  · simp [framePtrs, framePtrs_frameLines]
  · intro k _
    simp [framePtrs, framePtrs_frameLines]

/-- Witness of C2: the chain `0x1000 -> 0x2000 -> 0x3000 -> null`. -/
theorem mon_backtrace_frames_in_chain_order_witness :
    res3.Pure ∧ IsChain mem3 0x1000 [0x1000, 0x2000, 0x3000] ∧
    ∃ r, mon_backtrace res3 3 0 [] 0 mem3 0x1000 = some r ∧
      framePtrs r.out = [0x1000, 0x2000, 0x3000] ∧
      ∀ k, k < 3 → (framePtrs r.out)[k]? = [0x1000, 0x2000, 0x3000][k]? :=
  ⟨res3_pure, by decide,
    mon_backtrace_frames_in_chain_order res3 res3_pure 0 [] 0 mem3 0x1000
      [0x1000, 0x2000, 0x3000] 3 (by decide) (by decide)⟩

/-- C3: on a null-terminated chain `fs`, the raw-frame records are, frame by
frame, the frame pointer `p`, the word at `p + 4` and the words at `p + 8`,
`p + 12`, `p + 16`, `p + 20`, `p + 24`, in this order; the addresses passed to
the resolver are the words at `p + 4`; and the frame visited after `p` is the
word at `p`, the walk ending when that word is null. -/
theorem mon_backtrace_frame_layout (res : Resolver) (hp : res.Pure)
    (argc : Int) (argv : List String) (tf : Nat) (m : Mem) (ebp0 : Nat)
    (fs : List Nat) (fuel : Nat) (hc : IsChain m ebp0 fs) (hf : fs.length ≤ fuel) :
    ∃ r, mon_backtrace res fuel argc argv tf m ebp0 = some r ∧
      rawRecords r.out = fs.map (fun p =>
        Out.frame p (load32 m (p + 4)) (load32 m (p + 8)) (load32 m (p + 12))
          (load32 m (p + 16)) (load32 m (p + 20)) (load32 m (p + 24))) ∧
      r.calls = fs.map (fun p => load32 m (p + 4)) ∧
      (framePtrs r.out)[0]? = (if ebp0 = 0 then none else some ebp0) ∧
      ∀ k p, (framePtrs r.out)[k]? = some p →
        (framePtrs r.out)[k + 1]? = if load32 m p = 0 then none else some (load32 m p) := by
  refine ⟨_, mon_backtrace_chain res hp argc argv tf m ebp0 fs fuel hc hf, ?_, rfl, ?_, ?_⟩
  · simp only [rawRecords, rawRecords_frameLines]
    rfl
  · simp only [framePtrs, framePtrs_frameLines]
    cases fs with
    | nil =>
      have h0 : ebp0 = 0 := hc
      simp [h0]
    | cons f gs =>
      obtain ⟨hne, hfp, _⟩ := hc
      simp [hne, hfp]
  · intro k p hk
    simp only [framePtrs, framePtrs_frameLines] at hk ⊢
    exact isChain_next m fs ebp0 hc k p hk

/-- Witness of C3 on the three-frame example memory. -/
theorem mon_backtrace_frame_layout_witness :
    res3.Pure ∧ IsChain mem3 0x1000 [0x1000, 0x2000, 0x3000] ∧
    ∃ r, mon_backtrace res3 7 0 [] 0 mem3 0x1000 = some r ∧
      rawRecords r.out = [0x1000, 0x2000, 0x3000].map (fun p =>
        Out.frame p (load32 mem3 (p + 4)) (load32 mem3 (p + 8)) (load32 mem3 (p + 12))
          (load32 mem3 (p + 16)) (load32 mem3 (p + 20)) (load32 mem3 (p + 24))) ∧
      r.calls = [0x1000, 0x2000, 0x3000].map (fun p => load32 mem3 (p + 4)) ∧
      (framePtrs r.out)[0]? = (if 0x1000 = 0 then none else some 0x1000) ∧
      ∀ k p, (framePtrs r.out)[k]? = some p →
        (framePtrs r.out)[k + 1]?
          = if load32 mem3 p = 0 then none else some (load32 mem3 p) :=
  ⟨res3_pure, by decide,
    mon_backtrace_frame_layout res3 res3_pure 0 [] 0 mem3 0x1000
      [0x1000, 0x2000, 0x3000] 7 (by decide) (by decide)⟩

/-- C4: for a frame `p` of a null-terminated chain whose return address
`r` (the word at `p + 4`) the resolver resolves (result 0) with function start
`s`, the location record is the resolved one, carrying the file, line, name
length and name answered by the resolver, and its offset is `r - s` in
unsigned 32-bit arithmetic: never negative, below `2 ^ 32`, and the exact
difference `r - s` whenever `s <= r`. -/
theorem mon_backtrace_offset (res : Resolver) (hp : res.Pure)
    (argc : Int) (argv : List String) (tf : Nat) (m : Mem) (ebp0 : Nat)
    (fs : List Nat) (fuel : Nat) (hc : IsChain m ebp0 fs) (hf : fs.length ≤ fuel)
    (k p : Nat) (hk : fs[k]? = some p) (info : Eipdebuginfo)
    (hres : res (load32 m (p + 4)) Eipdebuginfo.zero m
      = { result := 0, info := info, mem := m }) :
    ∃ r off, mon_backtrace res fuel argc argv tf m ebp0 = some r ∧
      r.out[2 * k + 2]? = some (Out.resolved info.eip_file info.eip_line
        info.eip_fn_namelen info.eip_fn_name off) ∧
      (off : Int) = ((load32 m (p + 4) : Int) - (info.eip_fn_addr : Int)) % 4294967296 ∧
      (0 : Int) ≤ (off : Int) ∧ off < 4294967296 ∧
      (info.eip_fn_addr ≤ load32 m (p + 4) →
        (off : Int) = (load32 m (p + 4) : Int) - (info.eip_fn_addr : Int)) := by
  refine ⟨_, sub32 (load32 m (p + 4)) info.eip_fn_addr,
    mon_backtrace_chain res hp argc argv tf m ebp0 fs fuel hc hf, ?_,
    sub32_eq_emod _ _ (load32_lt m _), Int.natCast_nonneg _, sub32_lt _ _, ?_⟩
  · have h2 := (frameLines_get res m fs k p hk).2
    rw [hres] at h2
    simpa [locLine] using h2
  · intro hle
    have h := sub32_exact _ _ (load32_lt m (p + 4)) hle
    omega

/-- Witness of C4: the mapping `x.c`, line 42, `foo`, length 3, start `0x1000`
and return address `0x1010` give offset `0x10`. -/
theorem mon_backtrace_offset_witness :
    (res3.Pure ∧ IsChain mem3 0x1000 [0x1000, 0x2000, 0x3000] ∧
      load32 mem3 (0x2000 + 4) = 0x1010 ∧
      (mon_backtrace res3 3 0 [] 0 mem3 0x1000).map (fun r => r.out[2 * 1 + 2]?)
        = some (some (Out.resolved (some "x.c") 42 3 (some "foo") 0x10))) ∧
    ∃ r off, mon_backtrace res3 3 0 [] 0 mem3 0x1000 = some r ∧
      r.out[2 * 1 + 2]? = some (Out.resolved (some "x.c") 42 3 (some "foo") off) ∧
      (off : Int) = ((load32 mem3 (0x2000 + 4) : Int) - ((0x1000 : Nat) : Int)) % 4294967296 ∧
      (0 : Int) ≤ (off : Int) ∧ off < 4294967296 ∧
      (0x1000 ≤ load32 mem3 (0x2000 + 4) →
        (off : Int) = (load32 mem3 (0x2000 + 4) : Int) - ((0x1000 : Nat) : Int)) :=
  ⟨⟨res3_pure, by decide, by decide, by decide⟩,
    mon_backtrace_offset res3 res3_pure 0 [] 0 mem3 0x1000 [0x1000, 0x2000, 0x3000] 3
      (by decide) (by decide) 1 0x2000 (by decide)
      { eip_file := some "x.c", eip_line := 42, eip_fn_name := some "foo",
        eip_fn_namelen := 3, eip_fn_addr := 0x1000 } rfl⟩

/-- C5: on a null-terminated chain, a frame whose resolution fails (non-zero
result) gets the failure record naming its return address as its one location
record, and the walk goes on: against any other resolver (one for which that
resolution succeeds, say) the output has the same `1 + 2 * N` records, the
same frames are visited in the same order, every raw-frame record is the same
and sits right before the one location record of its frame, and the location
record of every frame on which the two resolvers answer alike is the same. -/
theorem mon_backtrace_failure_is_local (res res2 : Resolver) (hp : res.Pure)
    (hp2 : res2.Pure) (argc : Int) (argv : List String) (tf : Nat) (m : Mem)
    (ebp0 : Nat) (fs : List Nat) (fuel : Nat) (hc : IsChain m ebp0 fs)
    (hf : fs.length ≤ fuel) :
    ∃ r r2, mon_backtrace res fuel argc argv tf m ebp0 = some r ∧
      mon_backtrace res2 fuel argc argv tf m ebp0 = some r2 ∧
      r.out.length = 1 + 2 * fs.length ∧ r2.out.length = 1 + 2 * fs.length ∧
      framePtrs r.out = fs ∧ framePtrs r2.out = fs ∧
      rawRecords r.out = rawRecords r2.out ∧
      ∀ k p, fs[k]? = some p →
        r.out[2 * k + 1]? = some (Out.frame p (load32 m (p + 4)) (load32 m (p + 8))
          (load32 m (p + 12)) (load32 m (p + 16)) (load32 m (p + 20))
          (load32 m (p + 24))) ∧
        r2.out[2 * k + 1]? = r.out[2 * k + 1]? ∧
        ((res (load32 m (p + 4)) Eipdebuginfo.zero m).result ≠ 0 →
          r.out[2 * k + 2]? = some (Out.failed (load32 m (p + 4)))) ∧
        (res (load32 m (p + 4)) Eipdebuginfo.zero m
            = res2 (load32 m (p + 4)) Eipdebuginfo.zero m →
          r.out[2 * k + 2]? = r2.out[2 * k + 2]?) := by
  refine ⟨_, _, mon_backtrace_chain res hp argc argv tf m ebp0 fs fuel hc hf,
    mon_backtrace_chain res2 hp2 argc argv tf m ebp0 fs fuel hc hf, ?_, ?_, ?_, ?_, ?_, ?_⟩
  · simp [frameLines_length]; omega
  · simp [frameLines_length]; omega
  · simp [framePtrs, framePtrs_frameLines]
  · simp [framePtrs, framePtrs_frameLines]
  · simp [rawRecords, rawRecords_frameLines]
  · intro k p hk
    obtain ⟨a1, a2⟩ := frameLines_get res m fs k p hk
    obtain ⟨b1, b2⟩ := frameLines_get res2 m fs k p hk
    refine ⟨?_, ?_, ?_, ?_⟩
    · simp only [List.getElem?_cons_succ]
      rw [a1]
      rfl
    · simp only [List.getElem?_cons_succ]
      rw [a1, b1]
    · intro hne
      simp only [List.getElem?_cons_succ]
      rw [a2]
      simp [locLine, hne]
    · intro heq
      simp only [List.getElem?_cons_succ]
      rw [a2, b2, heq]

/-- Witness of C5: the first frame of the example fails to resolve with `res3`
and resolves with `resAll`. -/
theorem mon_backtrace_failure_is_local_witness :
    (res3.Pure ∧ resAll.Pure ∧ IsChain mem3 0x1000 [0x1000, 0x2000, 0x3000] ∧
      (res3 (load32 mem3 (0x1000 + 4)) Eipdebuginfo.zero mem3).result ≠ 0 ∧
      (resAll (load32 mem3 (0x1000 + 4)) Eipdebuginfo.zero mem3).result = 0) ∧
    ∃ r r2, mon_backtrace res3 3 0 [] 0 mem3 0x1000 = some r ∧
      mon_backtrace resAll 3 0 [] 0 mem3 0x1000 = some r2 ∧
      r.out.length = 1 + 2 * [0x1000, 0x2000, 0x3000].length ∧
      r2.out.length = 1 + 2 * [0x1000, 0x2000, 0x3000].length ∧
      framePtrs r.out = [0x1000, 0x2000, 0x3000] ∧
      framePtrs r2.out = [0x1000, 0x2000, 0x3000] ∧
      rawRecords r.out = rawRecords r2.out ∧
      ∀ k p, [0x1000, 0x2000, 0x3000][k]? = some p →
        r.out[2 * k + 1]? = some (Out.frame p (load32 mem3 (p + 4)) (load32 mem3 (p + 8))
          (load32 mem3 (p + 12)) (load32 mem3 (p + 16)) (load32 mem3 (p + 20))
          (load32 mem3 (p + 24))) ∧
        r2.out[2 * k + 1]? = r.out[2 * k + 1]? ∧
        ((res3 (load32 mem3 (p + 4)) Eipdebuginfo.zero mem3).result ≠ 0 →
          r.out[2 * k + 2]? = some (Out.failed (load32 mem3 (p + 4)))) ∧
        (res3 (load32 mem3 (p + 4)) Eipdebuginfo.zero mem3
            = resAll (load32 mem3 (p + 4)) Eipdebuginfo.zero mem3 →
          r.out[2 * k + 2]? = r2.out[2 * k + 2]?) :=
  ⟨⟨res3_pure, resAll_pure, by decide, by decide, by decide⟩,
    mon_backtrace_failure_is_local res3 resAll res3_pure resAll_pure 0 [] 0 mem3 0x1000
      [0x1000, 0x2000, 0x3000] 3 (by decide) (by decide)⟩

/-- C6: with a null frame pointer at entry, `mon_backtrace` returns (with any
fuel, resolver and memory) having printed the header and nothing else, loaded
no word from memory, called the resolver not once, and left memory as it was. -/
theorem mon_backtrace_null_entry (res : Resolver) (fuel : Nat) (argc : Int)
    (argv : List String) (tf : Nat) (m : Mem) :
    mon_backtrace res fuel argc argv tf m 0
      = some { status := 0, out := [Out.header], mem := m, calls := [], reads := [] } := by
  cases fuel <;> rfl

/-- C7: on a null-terminated chain of `N` frames the output of `mon_backtrace`
has exactly `1 + 2 * N` records: the header first, then for the `k`-th frame
`p` its raw-frame record at position `2 * k + 1` and right after it one
location record of that frame: the failure record when the resolver result
is not 0, the resolved record when it is 0. -/
theorem mon_backtrace_output_shape (res : Resolver) (hp : res.Pure)
    (argc : Int) (argv : List String) (tf : Nat) (m : Mem) (ebp0 : Nat)
    (fs : List Nat) (fuel : Nat) (hc : IsChain m ebp0 fs) (hf : fs.length ≤ fuel) :
    ∃ r, mon_backtrace res fuel argc argv tf m ebp0 = some r ∧
      r.out.length = 1 + 2 * fs.length ∧
      r.out[0]? = some Out.header ∧
      ∀ k p, fs[k]? = some p →
        r.out[2 * k + 1]? = some (Out.frame p (load32 m (p + 4)) (load32 m (p + 8))
          (load32 m (p + 12)) (load32 m (p + 16)) (load32 m (p + 20))
          (load32 m (p + 24))) ∧
        (((res (load32 m (p + 4)) Eipdebuginfo.zero m).result ≠ 0 ∧
            r.out[2 * k + 2]? = some (Out.failed (load32 m (p + 4)))) ∨
          ((res (load32 m (p + 4)) Eipdebuginfo.zero m).result = 0 ∧
            r.out[2 * k + 2]? = some (Out.resolved
              (res (load32 m (p + 4)) Eipdebuginfo.zero m).info.eip_file
              (res (load32 m (p + 4)) Eipdebuginfo.zero m).info.eip_line
              (res (load32 m (p + 4)) Eipdebuginfo.zero m).info.eip_fn_namelen
              (res (load32 m (p + 4)) Eipdebuginfo.zero m).info.eip_fn_name
              (sub32 (load32 m (p + 4))
                (res (load32 m (p + 4)) Eipdebuginfo.zero m).info.eip_fn_addr)))) := by
  refine ⟨_, mon_backtrace_chain res hp argc argv tf m ebp0 fs fuel hc hf, ?_, ?_, ?_⟩
  · simp [frameLines_length]; omega
  · simp
  · intro k p hk
    obtain ⟨a1, a2⟩ := frameLines_get res m fs k p hk
    simp only [List.getElem?_cons_succ]
    rw [a1, a2]
    refine ⟨rfl, ?_⟩
    by_cases h : (res (load32 m (p + 4)) Eipdebuginfo.zero m).result = 0
    · right; exact ⟨h, by simp [locLine, h]⟩
    · left; exact ⟨h, by simp [locLine, h]⟩

/-- Witness of C7: the three-frame example prints seven records. -/
theorem mon_backtrace_output_shape_witness :
    (res3.Pure ∧ IsChain mem3 0x1000 [0x1000, 0x2000, 0x3000] ∧
      (mon_backtrace res3 3 0 [] 0 mem3 0x1000).map (fun r => r.out)
        = some [Out.header,
            Out.frame 0x1000 0xf0100900 11 12 13 14 15,
            Out.failed 0xf0100900,
            Out.frame 0x2000 0x1010 21 22 23 24 25,
            Out.resolved (some "x.c") 42 3 (some "foo") 0x10,
            Out.frame 0x3000 0xf0100040 31 32 33 34 35,
            Out.resolved (some "kern/init.c") 24 9 (some "i386_init:F(0,1)") 0x40]) ∧
    ∃ r, mon_backtrace res3 3 0 [] 0 mem3 0x1000 = some r ∧
      r.out.length = 1 + 2 * [0x1000, 0x2000, 0x3000].length ∧
      r.out[0]? = some Out.header ∧
      ∀ k p, [0x1000, 0x2000, 0x3000][k]? = some p →
        r.out[2 * k + 1]? = some (Out.frame p (load32 mem3 (p + 4)) (load32 mem3 (p + 8))
          (load32 mem3 (p + 12)) (load32 mem3 (p + 16)) (load32 mem3 (p + 20))
          (load32 mem3 (p + 24))) ∧
        (((res3 (load32 mem3 (p + 4)) Eipdebuginfo.zero mem3).result ≠ 0 ∧
            r.out[2 * k + 2]? = some (Out.failed (load32 mem3 (p + 4)))) ∨
          ((res3 (load32 mem3 (p + 4)) Eipdebuginfo.zero mem3).result = 0 ∧
            r.out[2 * k + 2]? = some (Out.resolved
              (res3 (load32 mem3 (p + 4)) Eipdebuginfo.zero mem3).info.eip_file
              (res3 (load32 mem3 (p + 4)) Eipdebuginfo.zero mem3).info.eip_line
              (res3 (load32 mem3 (p + 4)) Eipdebuginfo.zero mem3).info.eip_fn_namelen
              (res3 (load32 mem3 (p + 4)) Eipdebuginfo.zero mem3).info.eip_fn_name
              (sub32 (load32 mem3 (p + 4))
                (res3 (load32 mem3 (p + 4)) Eipdebuginfo.zero mem3).info.eip_fn_addr)))) :=
  ⟨⟨res3_pure, by decide, by decide⟩,
    mon_backtrace_output_shape res3 res3_pure 0 [] 0 mem3 0x1000
      [0x1000, 0x2000, 0x3000] 3 (by decide) (by decide)⟩

/-! ## Resolvers that write to memory, halting, and memory effects -/

/-- C8, refuted as stated: with the resolver `resClobber`, which overwrites the
link and return address words of the frame at `0x1000` while it runs,
`mon_backtrace` names the overwritten return address `0xdeadbeef` on the
location record and follows the overwritten (null) link, so it stops after one
frame; the walk over the pre-call snapshot names `0xf0100900` and goes on
through `0x2000` and `0x3000`. -/
theorem mon_backtrace_rereads_after_resolver :
    (mon_backtrace resClobber 3 0 [] 0 mem3 0x1000).map (fun r => r.out)
      = some [Out.header,
          Out.frame 0x1000 0xf0100900 11 12 13 14 15,
          Out.failed 0xdeadbeef] ∧
    (mon_backtrace_snapshot resClobber 3 0 [] 0 mem3 0x1000).map (fun r => r.out)
      = some [Out.header,
          Out.frame 0x1000 0xf0100900 11 12 13 14 15,
          Out.failed 0xf0100900,
          Out.frame 0x2000 0x1010 21 22 23 24 25,
          Out.failed 0x1010,
          Out.frame 0x3000 0xf0100040 31 32 33 34 35,
          Out.failed 0xf0100040] ∧
    (mon_backtrace resClobber 3 0 [] 0 mem3 0x1000).map (fun r => r.out)
      ≠ (mon_backtrace_snapshot resClobber 3 0 [] 0 mem3 0x1000).map (fun r => r.out) := by
  refine ⟨by decide, by decide, by decide⟩

/-- C8, amended: in every iteration the raw-frame record and the address passed
to the resolver are read before the resolver call, while the address of the
location record and the link followed are read from the memory the resolver
leaves. So for every resolver that leaves the return address word and the
link word of the frame it is called for unchanged, `mon_backtrace` equals the
walk over the pre-call snapshot: same return (or none), status, output,
resolver calls and memory, for every fuel. -/
theorem mon_backtrace_eq_snapshot (res : Resolver) (hk : res.KeepsFrame) (argc : Int)
    (argv : List String) (tf : Nat) (m : Mem) (ebp0 : Nat) :
    (∀ (r : Resolver) (s : BtState),
      (backtraceBody r s).out = s.out ++
        [Out.frame s.ebp (load32 s.mem (s.ebp + 4)) (load32 s.mem (s.ebp + 8))
            (load32 s.mem (s.ebp + 12)) (load32 s.mem (s.ebp + 16))
            (load32 s.mem (s.ebp + 20)) (load32 s.mem (s.ebp + 24)),
          locLine (r (load32 s.mem (s.ebp + 4)) Eipdebuginfo.zero s.mem)
            (load32 (r (load32 s.mem (s.ebp + 4)) Eipdebuginfo.zero s.mem).mem (s.ebp + 4))] ∧
      (backtraceBody r s).calls = s.calls ++ [load32 s.mem (s.ebp + 4)] ∧
      (backtraceBody r s).ebp
        = load32 (r (load32 s.mem (s.ebp + 4)) Eipdebuginfo.zero s.mem).mem s.ebp) ∧
    ∀ fuel,
      (mon_backtrace res fuel argc argv tf m ebp0).map (fun r => (r.status, r.out, r.calls))
        = (mon_backtrace_snapshot res fuel argc argv tf m ebp0).map
            (fun r => (r.status, r.out, r.calls)) ∧
      (mon_backtrace res fuel argc argv tf m ebp0).map (fun r => r.mem)
        = (mon_backtrace_snapshot res fuel argc argv tf m ebp0).map (fun r => r.mem) := by
  constructor
  · intro r s
    refine ⟨?_, rfl, rfl⟩
    simp only [backtraceBody, locLine]
  · intro fuel
    obtain ⟨h1, h2, h3, h4⟩ := backtraceLoop_snapshot res hk fuel
      (backtraceInit m ebp0) (backtraceInit m ebp0) rfl rfl rfl rfl
    unfold mon_backtrace mon_backtrace_snapshot
    simp only [h1, h2, h3, h4]
    by_cases h0 : (backtraceLoopSnapshot res fuel (backtraceInit m ebp0)).ebp = 0
    · simp [h0]
    · simp [h0]

/-- Witness of the amended C8 with the resolver `res3`. -/
theorem mon_backtrace_eq_snapshot_witness :
    res3.KeepsFrame ∧
    ((∀ (r : Resolver) (s : BtState),
      (backtraceBody r s).out = s.out ++
        [Out.frame s.ebp (load32 s.mem (s.ebp + 4)) (load32 s.mem (s.ebp + 8))
            (load32 s.mem (s.ebp + 12)) (load32 s.mem (s.ebp + 16))
            (load32 s.mem (s.ebp + 20)) (load32 s.mem (s.ebp + 24)),
          locLine (r (load32 s.mem (s.ebp + 4)) Eipdebuginfo.zero s.mem)
            (load32 (r (load32 s.mem (s.ebp + 4)) Eipdebuginfo.zero s.mem).mem (s.ebp + 4))] ∧
      (backtraceBody r s).calls = s.calls ++ [load32 s.mem (s.ebp + 4)] ∧
      (backtraceBody r s).ebp
        = load32 (r (load32 s.mem (s.ebp + 4)) Eipdebuginfo.zero s.mem).mem s.ebp) ∧
    ∀ fuel,
      (mon_backtrace res3 fuel 0 [] 0 mem3 0x1000).map (fun r => (r.status, r.out, r.calls))
        = (mon_backtrace_snapshot res3 fuel 0 [] 0 mem3 0x1000).map
            (fun r => (r.status, r.out, r.calls)) ∧
      (mon_backtrace res3 fuel 0 [] 0 mem3 0x1000).map (fun r => r.mem)
        = (mon_backtrace_snapshot res3 fuel 0 [] 0 mem3 0x1000).map (fun r => r.mem)) :=
  ⟨keepsFrame_of_pure res3 res3_pure,
    mon_backtrace_eq_snapshot res3 (keepsFrame_of_pure res3 res3_pure) 0 [] 0 mem3 0x1000⟩

/-- C9: `mon_backtrace` returns within `fuel` iterations exactly when the chain
of saved frame pointers from the entry frame pointer meets null within `fuel`
links, so it halts if and only if the chain reaches null; when it returns, the
frames it has printed are the whole chain up to that first null. There is no
other exit: on a chain that never meets null it returns for no fuel and the
loop run for `fuel` iterations has printed `fuel` raw-frame records, and with
a frame whose link word is its own address these are `fuel` records of that
one frame. -/
theorem mon_backtrace_halts_iff (res : Resolver) (hp : res.Pure) (argc : Int)
    (argv : List String) (tf : Nat) (m : Mem) (ebp0 : Nat) :
    (∀ fuel, (mon_backtrace res fuel argc argv tf m ebp0).isSome = true
      ↔ ∃ n, n ≤ fuel ∧ linkAt m n ebp0 = 0) ∧
    ((∃ fuel, (mon_backtrace res fuel argc argv tf m ebp0).isSome = true)
      ↔ ∃ n, linkAt m n ebp0 = 0) ∧
    (∀ fuel r, mon_backtrace res fuel argc argv tf m ebp0 = some r →
      IsChain m ebp0 (framePtrs r.out)) ∧
    ((∀ n, linkAt m n ebp0 ≠ 0) → ∀ fuel,
      mon_backtrace res fuel argc argv tf m ebp0 = none ∧
      framePtrs (backtraceLoop res fuel (backtraceInit m ebp0)).out = chainOf m fuel ebp0 ∧
      (rawRecords (backtraceLoop res fuel (backtraceInit m ebp0)).out).length = fuel) ∧
    (ebp0 ≠ 0 → load32 m ebp0 = ebp0 → ∀ fuel,
      mon_backtrace res fuel argc argv tf m ebp0 = none ∧
      framePtrs (backtraceLoop res fuel (backtraceInit m ebp0)).out
        = List.replicate fuel ebp0) := by
  have hsome := mon_backtrace_isSome res hp argc argv tf m ebp0
  have hcyc : (∀ n, linkAt m n ebp0 ≠ 0) → ∀ fuel,
      mon_backtrace res fuel argc argv tf m ebp0 = none ∧
      framePtrs (backtraceLoop res fuel (backtraceInit m ebp0)).out = chainOf m fuel ebp0 ∧
      (rawRecords (backtraceLoop res fuel (backtraceInit m ebp0)).out).length = fuel := by
    intro hall fuel
    have hrun := backtraceLoop_run res hp m fuel ebp0 [Out.header] [] []
      (fun n _ => hall n)
    have hnone : mon_backtrace res fuel argc argv tf m ebp0 = none := by
      cases hm : mon_backtrace res fuel argc argv tf m ebp0 with
      | none => rfl
      | some r =>
        have h1 : (mon_backtrace res fuel argc argv tf m ebp0).isSome = true := by
          rw [hm]; rfl
        obtain ⟨n, _, hn⟩ := (hsome fuel).1 h1
        exact absurd hn (hall n)
    refine ⟨hnone, ?_, ?_⟩
    · simp only [backtraceInit, hrun, List.singleton_append]
      exact (framePtrs_header_frameLines res m _).1
    · simp only [backtraceInit, hrun, List.singleton_append]
      rw [(framePtrs_header_frameLines res m _).2]
      simp [chainOf_length]
  refine ⟨hsome, ?_, ?_, hcyc, ?_⟩
  · constructor
    · rintro ⟨fuel, hf⟩
      obtain ⟨n, _, hn⟩ := (hsome fuel).1 hf
      exact ⟨n, hn⟩
    · rintro ⟨n, hn⟩
      exact ⟨n, (hsome n).2 ⟨n, le_refl n, hn⟩⟩
  · intro fuel r hr
    have h1 : (mon_backtrace res fuel argc argv tf m ebp0).isSome = true := by
      rw [hr]; rfl
    obtain ⟨n, hnle, hn⟩ := (hsome fuel).1 h1
    have hex : ∃ k, linkAt m k ebp0 = 0 := ⟨n, hn⟩
    have hmin : ∀ k, k < Nat.find hex → linkAt m k ebp0 ≠ 0 :=
      fun k hk => Nat.find_min hex hk
    have hle : Nat.find hex ≤ fuel := le_trans (Nat.find_min' hex hn) hnle
    have hc := chainOf_isChain m (Nat.find hex) ebp0 hmin (Nat.find_spec hex)
    have hres := mon_backtrace_chain res hp argc argv tf m ebp0 _ fuel hc
      (by rw [chainOf_length]; exact hle)
    rw [hr] at hres
    have hr2 := Option.some.inj hres
    rw [hr2]
    simp only [(framePtrs_header_frameLines res m _).1]
    exact hc
  · intro hne hself fuel
    have hall : ∀ n, linkAt m n ebp0 ≠ 0 := by
      intro n
      rw [linkAt_self m ebp0 hself n]
      exact hne
    obtain ⟨a, b, _⟩ := hcyc hall fuel
    exact ⟨a, by rw [b, chainOf_self m ebp0 hself]⟩

/-- Witness of C9: the example with a frame linked to itself never returns; the
three-frame example returns with fuel 3 and not with fuel 2. -/
theorem mon_backtrace_halts_iff_witness :
    (res3.Pure ∧ (0x1000 : Nat) ≠ 0 ∧ load32 memSelf 0x1000 = 0x1000 ∧
      (mon_backtrace res3 3 0 [] 0 mem3 0x1000).isSome = true ∧
      (mon_backtrace res3 2 0 [] 0 mem3 0x1000).isSome = false) ∧
    ((∀ fuel, (mon_backtrace res3 fuel 0 [] 0 memSelf 0x1000).isSome = true
      ↔ ∃ n, n ≤ fuel ∧ linkAt memSelf n 0x1000 = 0) ∧
    ((∃ fuel, (mon_backtrace res3 fuel 0 [] 0 memSelf 0x1000).isSome = true)
      ↔ ∃ n, linkAt memSelf n 0x1000 = 0) ∧
    (∀ fuel r, mon_backtrace res3 fuel 0 [] 0 memSelf 0x1000 = some r →
      IsChain memSelf 0x1000 (framePtrs r.out)) ∧
    ((∀ n, linkAt memSelf n 0x1000 ≠ 0) → ∀ fuel,
      mon_backtrace res3 fuel 0 [] 0 memSelf 0x1000 = none ∧
      framePtrs (backtraceLoop res3 fuel (backtraceInit memSelf 0x1000)).out
        = chainOf memSelf fuel 0x1000 ∧
      (rawRecords (backtraceLoop res3 fuel (backtraceInit memSelf 0x1000)).out).length
        = fuel) ∧
    (0x1000 ≠ 0 → load32 memSelf 0x1000 = 0x1000 → ∀ fuel,
      mon_backtrace res3 fuel 0 [] 0 memSelf 0x1000 = none ∧
      framePtrs (backtraceLoop res3 fuel (backtraceInit memSelf 0x1000)).out
        = List.replicate fuel 0x1000)) :=
  ⟨⟨res3_pure, by decide, by decide, by decide, by decide⟩,
    mon_backtrace_halts_iff res3 res3_pure 0 [] 0 memSelf 0x1000⟩

/-- C10: with a resolver that leaves memory alone, `mon_backtrace` leaves
memory alone: after any number of iterations of its loop the memory is the
one it started with, so is the memory whenever it returns, and on a
null-terminated chain it does return, with every word of memory as before. -/
theorem mon_backtrace_read_only (res : Resolver) (hp : res.Pure) (argc : Int)
    (argv : List String) (tf : Nat) (m : Mem) (ebp0 : Nat) :
    (∀ fuel, (backtraceLoop res fuel (backtraceInit m ebp0)).mem = m) ∧
    (∀ fuel r, mon_backtrace res fuel argc argv tf m ebp0 = some r →
      r.mem = m ∧ ∀ a, load32 r.mem a = load32 m a) ∧
    (∀ fs fuel, IsChain m ebp0 fs → fs.length ≤ fuel →
      ∃ r, mon_backtrace res fuel argc argv tf m ebp0 = some r ∧
        r.mem = m ∧ ∀ a, load32 r.mem a = load32 m a) := by
  have hloop : ∀ fuel, (backtraceLoop res fuel (backtraceInit m ebp0)).mem = m :=
    fun fuel => backtraceLoop_mem res hp fuel (backtraceInit m ebp0)
  have hret : ∀ fuel r, mon_backtrace res fuel argc argv tf m ebp0 = some r →
      r.mem = m ∧ ∀ a, load32 r.mem a = load32 m a := by
    intro fuel r hr
    unfold mon_backtrace at hr
    by_cases h0 : (backtraceLoop res fuel (backtraceInit m ebp0)).ebp = 0
    · simp only [h0, if_true] at hr
      have hr2 := Option.some.inj hr
      have hmem : r.mem = m := by rw [← hr2]; exact hloop fuel
      exact ⟨hmem, fun a => by rw [hmem]⟩
    · simp [h0] at hr
  refine ⟨hloop, hret, ?_⟩
  intro fs fuel hc hf
  have hres := mon_backtrace_chain res hp argc argv tf m ebp0 fs fuel hc hf
  exact ⟨_, hres, rfl, fun _ => rfl⟩

/-- Witness of C10 on the three-frame example memory. -/
theorem mon_backtrace_read_only_witness :
    (res3.Pure ∧ IsChain mem3 0x1000 [0x1000, 0x2000, 0x3000]) ∧
    ((∀ fuel, (backtraceLoop res3 fuel (backtraceInit mem3 0x1000)).mem = mem3) ∧
    (∀ fuel r, mon_backtrace res3 fuel 0 [] 0 mem3 0x1000 = some r →
      r.mem = mem3 ∧ ∀ a, load32 r.mem a = load32 mem3 a) ∧
    (∀ fs fuel, IsChain mem3 0x1000 fs → fs.length ≤ fuel →
      ∃ r, mon_backtrace res3 fuel 0 [] 0 mem3 0x1000 = some r ∧
        r.mem = mem3 ∧ ∀ a, load32 r.mem a = load32 mem3 a)) :=
  ⟨⟨res3_pure, by decide⟩, mon_backtrace_read_only res3 res3_pure 0 [] 0 mem3 0x1000⟩

/-! ## Repeated runs and the return value -/

/-- C11: with a resolver that leaves memory alone, running `mon_backtrace` a
second time from the same entry frame pointer on the memory the first run
left gives the same return value and the same output records; the result does
not depend on `argc`, `argv` or `tf`; and on a null-terminated chain both runs
return, the output being the header followed by the records of the frames,
each resolved from a zeroed record. -/
theorem mon_backtrace_repeatable (res : Resolver) (hp : res.Pure) (argc : Int)
    (argv : List String) (tf : Nat) (m : Mem) (ebp0 : Nat) :
    (∀ fuel r1, mon_backtrace res fuel argc argv tf m ebp0 = some r1 →
      ∃ r2, mon_backtrace res fuel argc argv tf r1.mem ebp0 = some r2 ∧
        r2.out = r1.out ∧ r2.status = r1.status ∧ r2.calls = r1.calls) ∧
    (∀ fuel (argc2 : Int) (argv2 : List String) (tf2 : Nat),
      mon_backtrace res fuel argc2 argv2 tf2 m ebp0
        = mon_backtrace res fuel argc argv tf m ebp0) ∧
    (∀ fs fuel, IsChain m ebp0 fs → fs.length ≤ fuel →
      ∃ r1 r2, mon_backtrace res fuel argc argv tf m ebp0 = some r1 ∧
        mon_backtrace res fuel argc argv tf r1.mem ebp0 = some r2 ∧
        r2.out = r1.out ∧ r1.out = Out.header :: frameLines res m fs) := by
  have hmem : ∀ fuel r1, mon_backtrace res fuel argc argv tf m ebp0 = some r1 →
      r1.mem = m := by
    intro fuel r1 hr
    unfold mon_backtrace at hr
    by_cases h0 : (backtraceLoop res fuel (backtraceInit m ebp0)).ebp = 0
    · simp only [h0, if_true] at hr
      rw [← Option.some.inj hr]
      exact backtraceLoop_mem res hp fuel (backtraceInit m ebp0)
    · simp [h0] at hr
  refine ⟨?_, fun _ _ _ _ => rfl, ?_⟩
  · intro fuel r1 hr
    refine ⟨r1, ?_, rfl, rfl, rfl⟩
    rw [hmem fuel r1 hr]
    exact hr
  · intro fs fuel hc hf
    have hres := mon_backtrace_chain res hp argc argv tf m ebp0 fs fuel hc hf
    exact ⟨_, _, hres, hres, rfl, rfl⟩

/-- Witness of C11 on the three-frame example memory. -/
theorem mon_backtrace_repeatable_witness :
    (res3.Pure ∧ IsChain mem3 0x1000 [0x1000, 0x2000, 0x3000]) ∧
    ((∀ fuel r1, mon_backtrace res3 fuel 0 [] 0 mem3 0x1000 = some r1 →
      ∃ r2, mon_backtrace res3 fuel 0 [] 0 r1.mem 0x1000 = some r2 ∧
        r2.out = r1.out ∧ r2.status = r1.status ∧ r2.calls = r1.calls) ∧
    (∀ fuel (argc2 : Int) (argv2 : List String) (tf2 : Nat),
      mon_backtrace res3 fuel argc2 argv2 tf2 mem3 0x1000
        = mon_backtrace res3 fuel 0 [] 0 mem3 0x1000) ∧
    (∀ fs fuel, IsChain mem3 0x1000 fs → fs.length ≤ fuel →
      ∃ r1 r2, mon_backtrace res3 fuel 0 [] 0 mem3 0x1000 = some r1 ∧
        mon_backtrace res3 fuel 0 [] 0 r1.mem 0x1000 = some r2 ∧
        r2.out = r1.out ∧ r1.out = Out.header :: frameLines res3 mem3 fs)) :=
  ⟨⟨res3_pure, by decide⟩, mon_backtrace_repeatable res3 res3_pure 0 [] 0 mem3 0x1000⟩

/-- C12: whenever `mon_backtrace` returns, its return value is 0, for every
resolver (also one that writes memory or fails), memory, entry frame pointer,
fuel and arguments `argc`, `argv`, `tf`; and it does return, with 0, on every
null-terminated chain walked with a resolver that leaves memory alone. -/
theorem mon_backtrace_returns_zero (res : Resolver) (fuel : Nat) (argc : Int)
    (argv : List String) (tf : Nat) (m : Mem) (ebp0 : Nat) :
    (∀ r, mon_backtrace res fuel argc argv tf m ebp0 = some r → r.status = 0) ∧
    (∀ r, mon_backtrace res fuel argc argv tf m ebp0 = some r → ¬ r.status ≠ 0) ∧
    (∀ fs, res.Pure → IsChain m ebp0 fs → fs.length ≤ fuel →
      ∃ r, mon_backtrace res fuel argc argv tf m ebp0 = some r ∧ r.status = 0) := by
  have h1 : ∀ r, mon_backtrace res fuel argc argv tf m ebp0 = some r → r.status = 0 := by
    intro r hr
    unfold mon_backtrace at hr
    by_cases h0 : (backtraceLoop res fuel (backtraceInit m ebp0)).ebp = 0
    · simp only [h0, if_true] at hr
      rw [← Option.some.inj hr]
    · simp [h0] at hr
  refine ⟨h1, fun r hr hne => hne (h1 r hr), ?_⟩
  intro fs hp hc hf
  exact ⟨_, mon_backtrace_chain res hp argc argv tf m ebp0 fs fuel hc hf, rfl⟩

/-- Witness of C12: the three-frame example, where one resolution fails and
two succeed, and the run with a resolver that overwrites the frame. -/
theorem mon_backtrace_returns_zero_witness :
    (res3.Pure ∧ IsChain mem3 0x1000 [0x1000, 0x2000, 0x3000] ∧
      (mon_backtrace res3 3 2 ["backtrace", "x"] 0xf0100000 mem3 0x1000).map
        (fun r => r.status) = some 0 ∧
      (mon_backtrace resClobber 3 0 [] 0 mem3 0x1000).map (fun r => r.status) = some 0) ∧
    ((∀ r, mon_backtrace res3 3 2 ["backtrace", "x"] 0xf0100000 mem3 0x1000 = some r →
      r.status = 0) ∧
    (∀ r, mon_backtrace res3 3 2 ["backtrace", "x"] 0xf0100000 mem3 0x1000 = some r →
      ¬ r.status ≠ 0) ∧
    (∀ fs, res3.Pure → IsChain mem3 0x1000 fs → fs.length ≤ 3 →
      ∃ r, mon_backtrace res3 3 2 ["backtrace", "x"] 0xf0100000 mem3 0x1000 = some r ∧
        r.status = 0)) :=
  ⟨⟨res3_pure, by decide, by decide, by decide⟩,
    mon_backtrace_returns_zero res3 3 2 ["backtrace", "x"] 0xf0100000 mem3 0x1000⟩

/-! ## Formatting -/

theorem digitChar_mem (d : Nat) (hd : d < 16) : digitChar d ∈ digitChars := by
  interval_cases d <;> decide

theorem hexVal_digitChar (d : Nat) (hd : d < 16) : hexVal (digitChar d) = d := by
  interval_cases d <;> decide

theorem digitsRev_mem (f : Nat) :
    ∀ n c, c ∈ digitsRev 16 f n → c ∈ digitChars := by
  induction f with
  | zero => intro n c h; simp [digitsRev] at h
  | succ k ih =>
    intro n c h
    simp only [digitsRev, List.mem_cons] at h
    rcases h with h | h
    · rw [h]; exact digitChar_mem _ (Nat.mod_lt _ (by decide))
    · by_cases hn : n < 16
      · simp [hn] at h
      · simp only [hn, if_false] at h
        exact ih _ _ h

theorem digitsRev_val (f : Nat) :
    ∀ n, n < 16 ^ f → valRev (digitsRev 16 f n) = n := by
  induction f with
  | zero => intro n h; simp at h; subst h; rfl
  | succ k ih =>
    intro n h
    simp only [digitsRev, valRev]
    rw [hexVal_digitChar _ (Nat.mod_lt _ (by decide))]
    by_cases hn : n < 16
    · simp only [hn, if_true, valRev]
      omega
    · simp only [hn, if_false]
      have hq : n / 16 < 16 ^ k := by
        rw [Nat.div_lt_iff_lt_mul (by decide)]
        rw [pow_succ] at h
        exact h
      rw [ih _ hq]
      omega

theorem digitsRev_length_le (k : Nat) :
    ∀ f n, 1 ≤ k → k ≤ f → n < 16 ^ k → (digitsRev 16 f n).length ≤ k := by
  induction k with
  | zero => intro f n h1; omega
  | succ j ih =>
    intro f n _ hf hn
    cases f with
    | zero => omega
    | succ g =>
      simp only [digitsRev, List.length_cons]
      by_cases h16 : n < 16
      · simp [h16]
      · simp only [h16, if_false]
        have hj : 1 ≤ j := by
          rcases Nat.eq_zero_or_pos j with h0 | h0
          · subst h0; simp at hn; omega
          · exact h0
        have hq : n / 16 < 16 ^ j := by
          rw [Nat.div_lt_iff_lt_mul (by decide)]
          rw [pow_succ] at hn
          exact hn
        have := ih g (n / 16) hj (by omega) hq
        omega

theorem parseHex_snoc (l : List Char) (c : Char) :
    parseHex (l ++ [c]) = 16 * parseHex l + hexVal c := by
  simp [parseHex, List.foldl_append]

theorem parseHex_reverse : ∀ l : List Char, parseHex l.reverse = valRev l := by
  intro l
  induction l with
  | nil => rfl
  | cons c cs ih =>
    rw [List.reverse_cons, parseHex_snoc, ih]
    simp only [valRev]
    omega

theorem parseHex_zeros (k : Nat) (l : List Char) :
    parseHex (List.replicate k '0' ++ l) = parseHex l := by
  induction k with
  | zero => rfl
  | succ j ih =>
    have h0 : hexVal '0' = 0 := by decide
    simp only [parseHex, List.replicate_succ, List.cons_append, List.foldl_cons, h0] at ih ⊢
    exact ih

theorem fmt08x_length (w : Nat) : (fmt08x w).length = 8 := by
  have hw : w % WORD < 16 ^ 8 := Nat.mod_lt _ (by decide)
  have hl := digitsRev_length_le 8 64 (w % WORD) (by decide) (by decide) hw
  simp only [fmt08x, fmtNum, List.length_append, List.length_replicate, List.length_reverse]
  omega

theorem fmt08x_digits (w : Nat) : ∀ c, c ∈ fmt08x w → c ∈ digitChars := by
  intro c h
  simp only [fmt08x, fmtNum, List.mem_append, List.mem_replicate, List.mem_reverse] at h
  rcases h with ⟨_, h⟩ | h
  · rw [h]; decide
  · exact digitsRev_mem _ _ _ h

theorem fmt08x_parse (w : Nat) : parseHex (fmt08x w) = w % WORD := by
  have hw : w % WORD < 16 ^ 64 :=
    lt_of_lt_of_le (Nat.mod_lt _ (by decide)) (by decide)
  simp only [fmt08x, fmtNum]
  rw [parseHex_zeros, parseHex_reverse, digitsRev_val 64 _ hw]

theorem rawRecords_mem_frame :
    ∀ (os : List Out) (o : Out), o ∈ rawRecords os →
      ∃ p r a1 a2 a3 a4 a5, o = Out.frame p r a1 a2 a3 a4 a5 := by
  intro os
  induction os with
  | nil => intro o h; simp [rawRecords] at h
  | cons x xs ih =>
    intro o h
    cases x with
    | frame p r a1 a2 a3 a4 a5 =>
      simp only [rawRecords, List.mem_cons] at h
      rcases h with h | h
      · exact ⟨p, r, a1, a2, a3, a4, a5, h⟩
      · exact ih o h
    | header => exact ih o (by simpa [rawRecords] using h)
    | failed e => exact ih o (by simpa [rawRecords] using h)
    | resolved f l n nm off => exact ih o (by simpa [rawRecords] using h)

theorem render_frame_length (p r a1 a2 a3 a4 a5 : Nat) :
    (render (Out.frame p r a1 a2 a3 a4 a5)).length = 81 := by
  simp only [render, List.length_append, fmt08x_length]
  rfl

theorem takeWhile_take {α : Type} (q : α → Bool) :
    ∀ (l : List α) (n : Nat), (∀ c, c ∈ l.take n → q c = true) →
      (l.takeWhile q).take n = l.take n := by
  intro l
  induction l with
  | nil => intro n _; simp
  | cons x xs ih =>
    intro n h
    cases n with
    | zero => simp
    | succ k =>
      have hx : q x = true := h x (by simp)
      have hrest : ∀ c, c ∈ xs.take k → q c = true := by
        intro c hc
        exact h c (by simp [hc])
      simp [List.takeWhile_cons, hx, ih k hrest]

/-- C14: the conversion `%08x` writes every 32-bit word as exactly 8
characters, each one of the lowercase hexadecimal digits, the word being the
number they spell (so shorter numbers are padded with zeros on the left); the
raw-frame line of a record is made of seven such fields in the order frame
pointer, return address, five arguments, and every raw-frame line, also every
one printed by `mon_backtrace`, is 81 characters long. -/
theorem raw_frame_line_fixed_width (w : Nat) (hw : w < WORD) :
    (fmt08x w).length = 8 ∧
    (∀ c, c ∈ fmt08x w → c ∈ digitChars) ∧
    parseHex (fmt08x w) = w ∧
    (∀ v, v < WORD → fmt08x v = fmt08x w → v = w) ∧
    (∀ p r a1 a2 a3 a4 a5 : Nat,
      render (Out.frame p r a1 a2 a3 a4 a5)
        = "  ebp ".toList ++ fmt08x p ++ "  eip ".toList ++ fmt08x r ++ "  args ".toList
          ++ fmt08x a1 ++ " ".toList ++ fmt08x a2 ++ " ".toList ++ fmt08x a3
          ++ " ".toList ++ fmt08x a4 ++ " ".toList ++ fmt08x a5 ++ "\r\n".toList ∧
      (render (Out.frame p r a1 a2 a3 a4 a5)).length = 81) ∧
    (∀ (res : Resolver) (fuel : Nat) (m : Mem) (ebp0 : Nat) (o : Out),
      o ∈ rawRecords (backtraceLoop res fuel (backtraceInit m ebp0)).out →
        (render o).length = 81) := by
  have hp : parseHex (fmt08x w) = w := by
    rw [fmt08x_parse, Nat.mod_eq_of_lt hw]
  refine ⟨fmt08x_length w, fmt08x_digits w, hp, ?_, ?_, ?_⟩
  · intro v hv heq
    have h1 : parseHex (fmt08x v) = v := by rw [fmt08x_parse, Nat.mod_eq_of_lt hv]
    rw [← h1, heq, hp]
  · intro p r a1 a2 a3 a4 a5
    exact ⟨rfl, render_frame_length p r a1 a2 a3 a4 a5⟩
  · intro res fuel m ebp0 o ho
    obtain ⟨p, r, a1, a2, a3, a4, a5, rfl⟩ := rawRecords_mem_frame _ o ho
    exact render_frame_length p r a1 a2 a3 a4 a5

/-- Witness of C14: the word `0xb` is written `0000000b`, and the first
raw-frame line of the three-frame example. -/
theorem raw_frame_line_fixed_width_witness :
    ((0xb : Nat) < WORD ∧ fmt08x 0xb = "0000000b".toList ∧
      render (Out.frame 0x1000 0xf0100900 11 12 13 14 15)
        = ("  ebp 00001000  eip f0100900  args 0000000b 0000000c 0000000d 0000000e "
            ++ "0000000f\r\n").toList) ∧
    ((fmt08x 0xb).length = 8 ∧
    (∀ c, c ∈ fmt08x 0xb → c ∈ digitChars) ∧
    parseHex (fmt08x 0xb) = 0xb ∧
    (∀ v, v < WORD → fmt08x v = fmt08x 0xb → v = 0xb) ∧
    (∀ p r a1 a2 a3 a4 a5 : Nat,
      render (Out.frame p r a1 a2 a3 a4 a5)
        = "  ebp ".toList ++ fmt08x p ++ "  eip ".toList ++ fmt08x r ++ "  args ".toList
          ++ fmt08x a1 ++ " ".toList ++ fmt08x a2 ++ " ".toList ++ fmt08x a3
          ++ " ".toList ++ fmt08x a4 ++ " ".toList ++ fmt08x a5 ++ "\r\n".toList ∧
      (render (Out.frame p r a1 a2 a3 a4 a5)).length = 81) ∧
    (∀ (res : Resolver) (fuel : Nat) (m : Mem) (ebp0 : Nat) (o : Out),
      o ∈ rawRecords (backtraceLoop res fuel (backtraceInit m ebp0)).out →
        (render o).length = 81)) :=
  ⟨⟨by decide, by decide, by decide⟩, raw_frame_line_fixed_width 0xb (by decide)⟩

/-- C15: on a resolved-location line the function name is cut by the length
the resolver gave, not by a terminator: when the name buffer holds at least
`namelen` characters and none of the first `namelen` is NUL, the name written
is exactly the first `namelen` characters of the buffer, whatever follows
them, and the line is the file, the line number, that name and the offset. -/
theorem resolved_line_name_by_length (file : Option String) (line : Int) (namelen : Nat)
    (buf : String) (off : Nat) (hlen : namelen ≤ buf.toList.length)
    (hnul : ∀ c, c ∈ buf.toList.take namelen → c ≠ NUL) :
    fmtPrecS (namelen : Int) (some buf) = buf.toList.take namelen ∧
    (fmtPrecS (namelen : Int) (some buf)).length = namelen ∧
    render (Out.resolved file line (namelen : Int) (some buf) off)
      = "\t".toList ++ fmts file ++ ":".toList ++ fmtd line ++ ": ".toList
        ++ buf.toList.take namelen ++ "+".toList ++ fmtu off ++ "\r\n".toList ∧
    (∀ more : String,
      fmtPrecS (namelen : Int) (some (buf ++ more)) = buf.toList.take namelen) := by
  have hq : ∀ (l : List Char), (∀ c, c ∈ l.take namelen → c ≠ NUL) →
      (l.takeWhile (fun c => decide (c ≠ NUL))).take namelen = l.take namelen := by
    intro l hl
    exact takeWhile_take _ l namelen (fun c hc => by simpa using hl c hc)
  have hneg : ¬ ((namelen : Int) < 0) := by omega
  have h1 : fmtPrecS (namelen : Int) (some buf) = buf.toList.take namelen := by
    simp only [fmtPrecS, hneg, if_false, cstr, Int.toNat_ofNat]
    exact hq _ hnul
  refine ⟨h1, ?_, ?_, ?_⟩
  · rw [h1, List.length_take]
    omega
  · simp only [render, h1]
  · intro more
    have ht : (buf ++ more).toList.take namelen = buf.toList.take namelen := by
      show (buf ++ more).data.take namelen = buf.data.take namelen
      rw [String.data_append]
      exact List.take_append_of_le_length hlen
    simp only [fmtPrecS, hneg, if_false, cstr, Int.toNat_ofNat]
    rw [hq _ (by rw [ht]; exact hnul), ht]

/-- Witness of C15: the name buffer `i386_init:F(0,1)` with length 9 is
written as `i386_init`. -/
theorem resolved_line_name_by_length_witness :
    ((9 : Nat) ≤ "i386_init:F(0,1)".toList.length ∧
      (∀ c, c ∈ "i386_init:F(0,1)".toList.take 9 → c ≠ NUL) ∧
      render (Out.resolved (some "kern/init.c") 24 9 (some "i386_init:F(0,1)") 0x40)
        = "\tkern/init.c:24: i386_init+64\r\n".toList) ∧
    (fmtPrecS ((9 : Nat) : Int) (some "i386_init:F(0,1)")
        = "i386_init:F(0,1)".toList.take 9 ∧
    (fmtPrecS ((9 : Nat) : Int) (some "i386_init:F(0,1)")).length = 9 ∧
    render (Out.resolved (some "kern/init.c") 24 ((9 : Nat) : Int)
        (some "i386_init:F(0,1)") 0x40)
      = "\t".toList ++ fmts (some "kern/init.c") ++ ":".toList ++ fmtd 24 ++ ": ".toList
        ++ "i386_init:F(0,1)".toList.take 9 ++ "+".toList ++ fmtu 0x40 ++ "\r\n".toList ∧
    (∀ more : String,
      fmtPrecS ((9 : Nat) : Int) (some ("i386_init:F(0,1)" ++ more))
        = "i386_init:F(0,1)".toList.take 9)) :=
  ⟨⟨by decide, by decide, by decide⟩,
    resolved_line_name_by_length (some "kern/init.c") 24 9 "i386_init:F(0,1)" 0x40
      (by decide) (by decide)⟩

/-! ## Parsing a command line -/

theorem gobble_spec : ∀ (rest pre : List Char),
    ∃ wsp rest1, gobble pre rest = (pre ++ List.replicate wsp.length NUL, rest1) ∧
      rest = wsp ++ rest1 ∧
      (∀ c, c ∈ wsp → c ≠ NUL ∧ isWhitespace c = true) ∧
      (rest1 = [] ∨ ∃ c cs, rest1 = c :: cs ∧ (c = NUL ∨ isWhitespace c = false)) := by
  intro rest
  induction rest with
  | nil => intro pre; exact ⟨[], [], by simp [gobble], rfl, by simp, Or.inl rfl⟩
  | cons c cs ih =>
    intro pre
    by_cases h : c ≠ NUL ∧ isWhitespace c = true
    · obtain ⟨wsp, rest1, h1, h2, h3, h4⟩ := ih (pre ++ [NUL])
      refine ⟨c :: wsp, rest1, ?_, by rw [h2]; rfl, ?_, h4⟩
      · rw [gobble, if_pos h, h1]
        simp [List.replicate_succ]
      · intro x hx
        rcases List.mem_cons.1 hx with hx | hx
        · rw [hx]; exact h
        · exact h3 x hx
    · refine ⟨[], c :: cs, by rw [gobble, if_neg h]; simp, rfl, by simp,
        Or.inr ⟨c, cs, rfl, ?_⟩⟩
      by_cases hn : c = NUL
      · exact Or.inl hn
      · right
        cases hw : isWhitespace c with
        | false => rfl
        | true => exact absurd ⟨hn, hw⟩ h

theorem scanArg_spec : ∀ (rest pre : List Char),
    ∃ tok rest2, scanArg pre rest = (pre ++ tok, rest2) ∧
      rest = tok ++ rest2 ∧
      (∀ c, c ∈ tok → c ≠ NUL ∧ isWhitespace c = false) ∧
      (rest2 = [] ∨ ∃ c cs, rest2 = c :: cs ∧ (c = NUL ∨ isWhitespace c = true)) := by
  intro rest
  induction rest with
  | nil => intro pre; exact ⟨[], [], by simp [scanArg], rfl, by simp, Or.inl rfl⟩
  | cons c cs ih =>
    intro pre
    by_cases h : c ≠ NUL ∧ ¬ isWhitespace c = true
    · obtain ⟨tok, rest2, h1, h2, h3, h4⟩ := ih (pre ++ [c])
      refine ⟨c :: tok, rest2, ?_, by rw [h2]; rfl, ?_, h4⟩
      · rw [scanArg, if_pos h, h1]
        simp
      · intro x hx
        rcases List.mem_cons.1 hx with hx | hx
        · rw [hx]; exact ⟨h.1, by simpa using h.2⟩
        · exact h3 x hx
    · refine ⟨[], c :: cs, by rw [scanArg, if_neg h]; simp, rfl, by simp,
        Or.inr ⟨c, cs, rfl, ?_⟩⟩
      by_cases hn : c = NUL
      · exact Or.inl hn
      · right
        cases hw : isWhitespace c with
        | true => rfl
        | false => exact absurd ⟨hn, by simp [hw]⟩ h

theorem isWhitespace_NUL : isWhitespace NUL = false := by decide

theorem wsTokens_nil : wsTokens [] = [] := by
  simp [wsTokens]

theorem wsTokens_nul (cs : List Char) : wsTokens (NUL :: cs) = [] := by
  simp [wsTokens]

theorem wsTokens_ws_cons (c : Char) (cs : List Char) (hn : c ≠ NUL)
    (hw : isWhitespace c = true) : wsTokens (c :: cs) = wsTokens cs := by
  simp [wsTokens, List.takeWhile_cons, hn, hw]

theorem wsTokens_ws : ∀ (wsp l : List Char),
    (∀ c, c ∈ wsp → c ≠ NUL ∧ isWhitespace c = true) → wsTokens (wsp ++ l) = wsTokens l := by
  intro wsp
  induction wsp with
  | nil => intro l _; rfl
  | cons c cs ih =>
    intro l h
    have hc := h c (by simp)
    rw [List.cons_append, wsTokens_ws_cons c _ hc.1 hc.2]
    exact ih l (fun x hx => h x (by simp [hx]))

theorem takeWhile_append_all {α : Type} (q : α → Bool) :
    ∀ (a b : List α), (∀ c, c ∈ a → q c = true) →
      (a ++ b).takeWhile q = a ++ b.takeWhile q := by
  intro a
  induction a with
  | nil => intro b _; rfl
  | cons x xs ih =>
    intro b h
    have hx := h x (by simp)
    simp [List.takeWhile_cons, hx, ih b (fun c hc => h c (by simp [hc]))]

theorem wsTokens_tok (tok rest2 : List Char) (hne : tok ≠ [])
    (htok : ∀ c, c ∈ tok → c ≠ NUL ∧ isWhitespace c = false)
    (hrest : rest2 = [] ∨ ∃ c cs, rest2 = c :: cs ∧ (c = NUL ∨ isWhitespace c = true)) :
    wsTokens (tok ++ rest2) = tok :: wsTokens rest2 := by
  have hnw : ∀ x, x ∈ tok → ¬ isWhitespace x = true := by
    intro x hx; simp [(htok x hx).2]
  have hcont : (tok ++ rest2).takeWhile (fun c => decide (c ≠ NUL))
      = tok ++ rest2.takeWhile (fun c => decide (c ≠ NUL)) :=
    takeWhile_append_all _ tok rest2 (fun c hc => by simpa using (htok c hc).1)
  have hemp : tok.isEmpty = false := by
    cases tok with
    | nil => exact absurd rfl hne
    | cons _ _ => rfl
  have hsingle : wsTokens tok = [tok] := by
    have h0 : tok.takeWhile (fun c => decide (c ≠ NUL)) = tok := by
      have := takeWhile_append_all (fun c => decide (c ≠ NUL)) tok []
        (fun c hc => by simpa using (htok c hc).1)
      simpa using this
    simp only [wsTokens, h0]
    rw [List.splitOnP_eq_single _ _ hnw]
    simp [hemp]
  rcases hrest with h | ⟨c, cs, h, hc⟩
  · subst h
    simp only [List.append_nil, wsTokens_nil, hsingle]
  · subst h
    by_cases hn : c = NUL
    · subst hn
      rw [wsTokens_nul]
      simp only [wsTokens, hcont]
      have : List.takeWhile (fun c => decide (c ≠ NUL)) (NUL :: cs) = [] := by simp
      rw [this, List.append_nil, List.splitOnP_eq_single _ _ hnw]
      simp [hemp]
    · have hw : isWhitespace c = true := by
        rcases hc with hc | hc
        · exact absurd hc hn
        · exact hc
      rw [wsTokens_ws_cons c cs hn hw]
      simp only [wsTokens, hcont]
      have : List.takeWhile (fun c => decide (c ≠ NUL)) (c :: cs)
          = c :: List.takeWhile (fun c => decide (c ≠ NUL)) cs := by
        simp [List.takeWhile_cons, hn]
      rw [this, List.splitOnP_first _ _ hnw c hw]
      simp [hemp]

theorem tok_ne_nil (tok rest2 : List Char) (c : Char) (cs : List Char)
    (h : c :: cs = tok ++ rest2) (hn : c ≠ NUL) (hw : isWhitespace c = false)
    (hrest : rest2 = [] ∨ ∃ d ds, rest2 = d :: ds ∧ (d = NUL ∨ isWhitespace d = true)) :
    tok ≠ [] := by
  intro ht
  subst ht
  rcases hrest with h2 | ⟨d, ds, h2, hd⟩
  · subst h2; simp at h
  · subst h2
    simp only [List.nil_append, List.cons.injEq] at h
    obtain ⟨h, _⟩ := h
    subst h
    rcases hd with hd | hd
    · exact hn hd
    · rw [hw] at hd; exact Bool.noConfusion hd

theorem argStr_tok (pre tok suf : List Char)
    (htok : ∀ c, c ∈ tok → c ≠ NUL ∧ isWhitespace c = false)
    (hsuf : suf = [] ∨ ∃ cs, suf = NUL :: cs) :
    argStr (pre ++ tok ++ suf) (some pre.length) = tok := by
  have hd : (pre ++ tok ++ suf).drop pre.length = tok ++ suf := by
    rw [List.append_assoc, List.drop_left]
  simp only [argStr, hd]
  rw [takeWhile_append_all _ tok suf (fun c hc => by simpa using (htok c hc).1)]
  rcases hsuf with h | ⟨cs, h⟩
  · subst h; simp
  · subst h; simp

theorem parseArgs_done (fuel : Nat) :
    ∀ (pre rest : List Char) (argc : Nat) (argv : Nat → Option Nat),
      rest.length < fuel → argc + (wsTokens rest).length ≤ 15 →
      ∃ suf av,
        parseArgs fuel pre rest argc argv
          = some (Parse.done (pre ++ suf) (argc + (wsTokens rest).length) av) ∧
        suf.length = rest.length ∧
        ((rest = [] ∨ ∃ c cs, rest = c :: cs ∧ (c = NUL ∨ isWhitespace c = true)) →
          (suf = [] ∨ ∃ cs, suf = NUL :: cs)) ∧
        (∀ i, i < argc → av i = argv i) ∧
        (∀ j, j < (wsTokens rest).length →
          (wsTokens rest)[j]? = some (argStr (pre ++ suf) (av (argc + j)))) := by
  induction fuel with
  | zero => intro pre rest argc argv h; omega
  | succ f ih =>
    intro pre rest argc argv hlen hcount
    obtain ⟨wsp, rest1, hg, hrest, hwsp, hhead⟩ := gobble_spec rest pre
    have hT : wsTokens rest = wsTokens rest1 := by
      rw [hrest]; exact wsTokens_ws _ _ hwsp
    have hstop : (rest1 = [] ∨ ∃ cs, rest1 = NUL :: cs) →
        ∃ suf av,
          parseArgs (f + 1) pre rest argc argv
            = some (Parse.done (pre ++ suf) (argc + (wsTokens rest).length) av) ∧
          suf.length = rest.length ∧
          ((rest = [] ∨ ∃ c cs, rest = c :: cs ∧ (c = NUL ∨ isWhitespace c = true)) →
            (suf = [] ∨ ∃ cs, suf = NUL :: cs)) ∧
          (∀ i, i < argc → av i = argv i) ∧
          (∀ j, j < (wsTokens rest).length →
            (wsTokens rest)[j]? = some (argStr (pre ++ suf) (av (argc + j)))) := by
      intro h1
      have hT0 : wsTokens rest1 = [] := by
        rcases h1 with h1 | ⟨cs, h1⟩
        · rw [h1]; exact wsTokens_nil
        · rw [h1]; exact wsTokens_nul cs
      have hhd : rest1.headD NUL = NUL := by
        rcases h1 with h1 | ⟨cs, h1⟩
        · rw [h1]; rfl
        · rw [h1]; rfl
      refine ⟨List.replicate wsp.length NUL ++ rest1, argv, ?_, ?_, ?_, fun _ _ => rfl, ?_⟩
      · rw [parseArgs]
        simp only [hg, hhd, if_true, hT, hT0, List.length_nil, Nat.add_zero,
          List.append_assoc]
      · rw [hrest]; simp
      · intro _
        cases wsp with
        | nil =>
          rcases h1 with h1 | ⟨cs, h1⟩
          · left; rw [h1]; rfl
          · right; exact ⟨cs, by rw [h1]; rfl⟩
        | cons w ws => right; exact ⟨List.replicate ws.length NUL ++ rest1, rfl⟩
      · intro j hj
        rw [hT, hT0] at hj
        simp at hj
    rcases hhead with h1 | ⟨c, cs, h1, hc⟩
    · exact hstop (Or.inl h1)
    · by_cases hn : c = NUL
      · exact hstop (Or.inr ⟨cs, by rw [h1, hn]⟩)
      · have hw : isWhitespace c = false := by
          rcases hc with hc | hc
          · exact absurd hc hn
          · exact hc
        obtain ⟨tok, rest2, hs, hr1, htok, hhead2⟩ :=
          scanArg_spec rest1 (pre ++ List.replicate wsp.length NUL)
        have htne : tok ≠ [] := tok_ne_nil tok rest2 c cs (by rw [← h1]; exact hr1) hn hw hhead2
        have hT1 : wsTokens rest1 = tok :: wsTokens rest2 := by
          rw [hr1]; exact wsTokens_tok tok rest2 htne htok hhead2
        have hcnt : (wsTokens rest).length = (wsTokens rest2).length + 1 := by
          rw [hT, hT1]; rfl
        have hargc : argc ≠ MAXARGS - 1 := by
          simp only [MAXARGS]; omega
        have hhd : ¬ rest1.headD NUL = NUL := by
          rw [h1]; exact hn
        have htl : 0 < tok.length := List.length_pos.2 htne
        have hl2 : rest2.length < f := by
          have e1 : rest.length = wsp.length + rest1.length := by rw [hrest]; simp
          have e2 : rest1.length = tok.length + rest2.length := by rw [hr1]; simp
          omega
        obtain ⟨suf2, av, hp, hsl, hterm, hold, hnew⟩ :=
          ih (pre ++ List.replicate wsp.length NUL ++ tok) rest2 (argc + 1)
            (setArg argv argc (some (pre ++ List.replicate wsp.length NUL).length))
            hl2 (by omega)
        have hsuf2 := hterm hhead2
        refine ⟨List.replicate wsp.length NUL ++ tok ++ suf2, av, ?_, ?_, ?_, ?_, ?_⟩
        · have e1 : argc + 1 + (wsTokens rest2).length = argc + (wsTokens rest).length := by
            omega
          have e2 : pre ++ List.replicate wsp.length NUL ++ tok ++ suf2
              = pre ++ (List.replicate wsp.length NUL ++ tok ++ suf2) := by
            simp [List.append_assoc]
          rw [e1, e2] at hp
          rw [parseArgs]
          simp only [hg]
          rw [if_neg hhd, if_neg hargc]
          simp only [hs]
          exact hp
        · rw [hrest, hr1]; simp [hsl]
        · intro hpre
          cases wsp with
          | nil =>
            exfalso
            simp only [List.nil_append] at hrest
            rcases hpre with hpre | ⟨d, ds, hpre, hd⟩
            · rw [hpre] at hrest; rw [h1] at hrest; cases hrest
            · rw [hpre, h1] at hrest
              simp only [List.cons.injEq] at hrest
              obtain ⟨hdc, _⟩ := hrest
              subst hdc
              rcases hd with hd | hd
              · exact hn hd
              · rw [hw] at hd; exact Bool.noConfusion hd
          | cons w ws =>
            right
            exact ⟨List.replicate ws.length NUL ++ tok ++ suf2, rfl⟩
        · intro i hi
          rw [hold i (by omega)]
          simp only [setArg]
          rw [if_neg (by omega)]
        · intro j hj
          have hb : pre ++ (List.replicate wsp.length NUL ++ tok ++ suf2)
              = pre ++ List.replicate wsp.length NUL ++ tok ++ suf2 := by
            simp [List.append_assoc]
          rw [hT, hT1]
          cases j with
          | zero =>
            have h0 : av (argc + 0)
                = some (pre ++ List.replicate wsp.length NUL).length := by
              rw [Nat.add_zero, hold argc (by omega)]
              simp [setArg]
            rw [h0, hb, argStr_tok _ tok suf2 htok hsuf2]
            simp
          | succ k =>
            have hk : k < (wsTokens rest2).length := by omega
            have := hnew k hk
            rw [hb]
            have e : argc + (k + 1) = argc + 1 + k := by omega
            rw [e]
            simpa using this

theorem parseArgs_tooMany (fuel : Nat) :
    ∀ (pre rest : List Char) (argc : Nat) (argv : Nat → Option Nat),
      rest.length < fuel → argc ≤ 15 → 15 < argc + (wsTokens rest).length →
      ∃ b av, parseArgs fuel pre rest argc argv = some (Parse.tooMany b 15 av) := by
  induction fuel with
  | zero => intro pre rest argc argv h; omega
  | succ f ih =>
    intro pre rest argc argv hlen hargc hcount
    obtain ⟨wsp, rest1, hg, hrest, hwsp, hhead⟩ := gobble_spec rest pre
    have hT : wsTokens rest = wsTokens rest1 := by
      rw [hrest]; exact wsTokens_ws _ _ hwsp
    rcases hhead with h1 | ⟨c, cs, h1, hc⟩
    · exfalso
      rw [hT, h1, wsTokens_nil] at hcount
      simp at hcount
      omega
    · by_cases hn : c = NUL
      · exfalso
        rw [hT, h1, hn, wsTokens_nul] at hcount
        simp at hcount
        omega
      · have hw : isWhitespace c = false := by
          rcases hc with hc | hc
          · exact absurd hc hn
          · exact hc
        have hhd : ¬ rest1.headD NUL = NUL := by
          rw [h1]; exact hn
        by_cases h15 : argc = MAXARGS - 1
        · refine ⟨pre ++ List.replicate wsp.length NUL ++ rest1, argv, ?_⟩
          rw [parseArgs]
          simp only [hg]
          rw [if_neg hhd, if_pos h15, h15]
          rfl
        · obtain ⟨tok, rest2, hs, hr1, htok, hhead2⟩ :=
            scanArg_spec rest1 (pre ++ List.replicate wsp.length NUL)
          have htne : tok ≠ [] :=
            tok_ne_nil tok rest2 c cs (by rw [← h1]; exact hr1) hn hw hhead2
          have hT1 : wsTokens rest1 = tok :: wsTokens rest2 := by
            rw [hr1]; exact wsTokens_tok tok rest2 htne htok hhead2
          have hcnt : (wsTokens rest).length = (wsTokens rest2).length + 1 := by
            rw [hT, hT1]; rfl
          have htl : 0 < tok.length := List.length_pos.2 htne
          have hl2 : rest2.length < f := by
            have e1 : rest.length = wsp.length + rest1.length := by rw [hrest]; simp
            have e2 : rest1.length = tok.length + rest2.length := by rw [hr1]; simp
            omega
          have h15b : argc ≠ 15 := h15
          obtain ⟨b, av, hp⟩ :=
            ih (pre ++ List.replicate wsp.length NUL ++ tok) rest2 (argc + 1)
              (setArg argv argc (some (pre ++ List.replicate wsp.length NUL).length))
              hl2 (by omega) (by omega)
          refine ⟨b, av, ?_⟩
          rw [parseArgs]
          simp only [hg]
          rw [if_neg hhd, if_neg h15]
          simp only [hs]
          exact hp

theorem argStrings_eq (b : List Char) (av : Nat → Option Nat) (ts : List (List Char))
    (h : ∀ j, j < ts.length → ts[j]? = some (argStr b (av j))) :
    argStrings b ts.length (setArg av ts.length none) = ts := by
  apply List.ext_getElem?
  intro j
  by_cases hj : j < ts.length
  · rw [h j hj]
    simp only [argStrings]
    rw [List.getElem?_map, List.getElem?_range hj]
    simp only [Option.map_some', setArg]
    rw [if_neg (by omega)]
  · have h1 : ts[j]? = none := List.getElem?_eq_none (by omega)
    rw [h1]
    apply List.getElem?_eq_none
    simp [argStrings]
    omega

/-- The parsing loop of `runcmd` on a line of at most 15 tokens. -/
theorem parseArgs_line (fuel : Nat) (buf : List Char) (argv0 : Nat → Option Nat)
    (hf : buf.length < fuel) (hn : (wsTokens buf).length ≤ 15) :
    ∃ b av, parseArgs fuel [] buf 0 (setArg argv0 0 none)
        = some (Parse.done b (wsTokens buf).length av) ∧
      argStrings b (wsTokens buf).length (setArg av (wsTokens buf).length none)
        = wsTokens buf ∧
      (∀ t ts, wsTokens buf = t :: ts →
        argStr b (setArg av (wsTokens buf).length none 0) = t) := by
  obtain ⟨suf, av, hp, _, _, _, hnew⟩ :=
    parseArgs_done fuel [] buf 0 (setArg argv0 0 none) hf (by omega)
  simp only [List.nil_append, Nat.zero_add] at hp hnew
  refine ⟨suf, av, hp, argStrings_eq suf av _ hnew, ?_⟩
  intro t ts hts
  have h0 := hnew 0 (by rw [hts]; simp)
  have hl : (wsTokens buf).length ≠ 0 := by rw [hts]; simp
  simp only [setArg]
  rw [if_neg (fun h => hl h.symm)]
  rw [hts] at h0
  simp only [List.getElem?_cons_zero, Option.some.injEq] at h0
  exact h0.symm

theorem lookupCommand_mem : ∀ (cmds : List Command) (a : List Char) (c : Command),
    lookupCommand cmds a = some c → c ∈ cmds := by
  intro cmds
  induction cmds with
  | nil => intro a c h; simp [lookupCommand] at h
  | cons d ds ih =>
    intro a c h
    rw [lookupCommand] at h
    by_cases hd : a = d.name.toList.takeWhile (fun x => x ≠ NUL)
    · rw [if_pos hd] at h
      rw [← Option.some.inj h]
      exact List.mem_cons_self _ _
    · rw [if_neg hd] at h
      exact List.mem_cons_of_mem _ (ih a c h)

theorem lookupCommand_find : ∀ (cmds : List Command) (a : List Char),
    lookupCommand cmds a
      = cmds.find? (fun c => decide (a = c.name.toList.takeWhile (fun x => x ≠ NUL))) := by
  intro cmds
  induction cmds with
  | nil => intro a; rfl
  | cons d ds ih =>
    intro a
    rw [lookupCommand]
    by_cases hd : a = d.name.toList.takeWhile (fun x => x ≠ NUL)
    · rw [if_pos hd, List.find?_cons_of_pos _ (by simpa using hd)]
    · rw [if_neg hd, List.find?_cons_of_neg _ (by simpa using hd)]
      exact ih a

theorem commands_func (c : Command) (h : c ∈ commands) :
    c.func = MonFn.mon_help ∨ c.func = MonFn.mon_kerninfo := by
  simp only [commands, List.mem_cons, List.mem_singleton, List.not_mem_nil, or_false] at h
  rcases h with h | h
  · left; rw [h]
  · right; rw [h]

theorem callFn_commands (K : Kernel) (fuel : Nat) (c : Command) (h : c ∈ commands)
    (argc : Int) (argv : List String) (tf : Nat) (m : Mem) :
    ∃ r, callFn K fuel c.func argc argv tf m = some r ∧ r.ret = 0 ∧ r.mem = m := by
  rcases commands_func c h with hc | hc
  · rw [hc]; exact ⟨_, rfl, rfl, rfl⟩
  · rw [hc]; exact ⟨_, rfl, rfl, rfl⟩

/-- A call of `runcmd` on a line of at most 15 tokens: what is parsed, and how
the call goes on from there. -/
theorem runcmdWith_line (cmds : List Command) (K : Kernel) (fuel : Nat) (buf : List Char)
    (tf : Nat) (argv0 : Nat → Option Nat) (m : Mem)
    (hf : buf.length < fuel) (hn : (wsTokens buf).length ≤ 15) :
    ∃ b av, av (wsTokens buf).length = none ∧
      argStrings b (wsTokens buf).length av = wsTokens buf ∧
      runcmdWith cmds K fuel buf tf argv0 m =
        (if (wsTokens buf).length = 0 then
          some { ret := 0, out := [], mem := m, buf := b, argc := (wsTokens buf).length,
                 argv := av, called := none }
        else
          match lookupCommand cmds ((wsTokens buf).headD []) with
          | some c =>
            (callFn K fuel c.func (wsTokens buf).length
                ((wsTokens buf).map String.mk) tf m).map
              (fun r => { ret := r.ret, out := r.out, mem := r.mem, buf := b,
                          argc := (wsTokens buf).length, argv := av,
                          called := some c.func })
          | none =>
            some { ret := 0, out := [MonOut.unknown ((wsTokens buf).headD [])], mem := m,
                   buf := b, argc := (wsTokens buf).length, argv := av,
                   called := none }) := by
  obtain ⟨b, av, hp, hstr, hhead⟩ := parseArgs_line fuel buf argv0 hf hn
  refine ⟨b, setArg av (wsTokens buf).length none, by simp [setArg], hstr, ?_⟩
  simp only [runcmdWith, hp]
  by_cases h0 : (wsTokens buf).length = 0
  · simp only [h0, if_true]
  · simp only [h0, if_false]
    cases hts : wsTokens buf with
    | nil => rw [hts] at h0; simp at h0
    | cons t ts =>
      have ht := hhead t ts hts
      rw [hts] at ht hstr
      simp only [ht, hstr, List.headD_cons]

/-- A call of `runcmd` on a line of 16 tokens or more. -/
theorem runcmdWith_tooMany (cmds : List Command) (K : Kernel) (fuel : Nat)
    (buf : List Char) (tf : Nat) (argv0 : Nat → Option Nat) (m : Mem)
    (hf : buf.length < fuel) (hn : 16 ≤ (wsTokens buf).length) :
    ∃ b av, runcmdWith cmds K fuel buf tf argv0 m
      = some { ret := 0, out := [MonOut.tooMany 16], mem := m, buf := b, argc := 15,
               argv := av, called := none } := by
  obtain ⟨b, av, hp⟩ :=
    parseArgs_tooMany fuel [] buf 0 (setArg argv0 0 none) hf (by omega) (by omega)
  refine ⟨b, av, ?_⟩
  simp only [runcmdWith, hp]
  rfl

/-- With the table `commands`, `runcmd` returns 0 and leaves memory alone. -/
theorem runcmd_ret (K : Kernel) (fuel : Nat) (buf : List Char) (tf : Nat)
    (argv0 : Nat → Option Nat) (m : Mem) (hf : buf.length < fuel) :
    ∃ r, runcmd K fuel buf tf argv0 m = some r ∧ r.ret = 0 ∧ r.mem = m ∧
      r.called ≠ some MonFn.mon_backtrace := by
  by_cases hn : (wsTokens buf).length ≤ 15
  · obtain ⟨b, av, _, _, hr⟩ := runcmdWith_line commands K fuel buf tf argv0 m hf hn
    unfold runcmd
    rw [hr]
    by_cases h0 : (wsTokens buf).length = 0
    · rw [if_pos h0]
      exact ⟨_, rfl, rfl, rfl, by simp⟩
    · rw [if_neg h0]
      cases hl : lookupCommand commands ((wsTokens buf).headD []) with
      | none => exact ⟨_, rfl, rfl, rfl, by simp⟩
      | some c =>
        have hmem := lookupCommand_mem _ _ _ hl
        obtain ⟨r, hr1, hr2, hr3⟩ := callFn_commands K fuel c hmem
          (wsTokens buf).length ((wsTokens buf).map String.mk) tf m
        simp only [hr1, Option.map_some']
        refine ⟨_, rfl, hr2, hr3, ?_⟩
        rcases commands_func c hmem with hc | hc <;> simp [hc]
  · obtain ⟨b, av, hr⟩ :=
      runcmdWith_tooMany commands K fuel buf tf argv0 m hf (by omega)
    unfold runcmd
    rw [hr]
    exact ⟨_, rfl, rfl, rfl, by simp⟩

theorem runcmdWith_called (cmds : List Command) (K : Kernel) (fuel : Nat)
    (buf : List Char) (tf : Nat) (argv0 : Nat → Option Nat) (m : Mem) (r : RunResult)
    (f : MonFn) (h : runcmdWith cmds K fuel buf tf argv0 m = some r)
    (hc : r.called = some f) : ∃ c, c ∈ cmds ∧ c.func = f := by
  unfold runcmdWith at h
  cases hp : parseArgs fuel [] buf 0 (setArg argv0 0 none) with
  | none => rw [hp] at h; simp at h
  | some p =>
    rw [hp] at h
    cases p with
    | tooMany b n av =>
      simp only [Option.some.injEq] at h
      rw [← h] at hc
      simp at hc
    | done b n av =>
      simp only at h
      by_cases h0 : n = 0
      · rw [if_pos h0] at h
        simp only [Option.some.injEq] at h
        rw [← h] at hc
        simp at hc
      · rw [if_neg h0] at h
        cases hl : lookupCommand cmds (argStr b (setArg av n none 0)) with
        | none =>
          rw [hl] at h
          simp only [Option.some.injEq] at h
          rw [← h] at hc
          simp at hc
        | some c =>
          rw [hl] at h
          simp only [Option.map_eq_some'] at h
          obtain ⟨x, _, hx⟩ := h
          rw [← hx] at hc
          simp only [Option.some.injEq] at hc
          exact ⟨c, lookupCommand_mem _ _ _ hl, hc⟩

theorem wsTokens_all_ws (buf : List Char) (h : ∀ c, c ∈ buf → isWhitespace c = true) :
    wsTokens buf = [] := by
  have h1 := wsTokens_ws buf [] (fun c hc => by
    refine ⟨?_, h c hc⟩
    intro hn
    have := h c hc
    rw [hn, isWhitespace_NUL] at this
    exact Bool.noConfusion this)
  rw [List.append_nil] at h1
  rw [h1, wsTokens_nil]

theorem monitorLoop_runs (K : Kernel) (fuel : Nat) (tf : Nat) (argv0 : Nat → Option Nat) :
    ∀ (lines : List (Option (List Char))) (out : List MonOut) (m : Mem),
      (∀ b, some b ∈ lines → b.length < fuel) →
      ∃ r, monitorLoop K fuel tf argv0 lines out m = some r ∧ r.exited = false ∧
        r.unread = [] ∧ r.mem = m := by
  intro lines
  induction lines with
  | nil => intro out m _; exact ⟨_, rfl, rfl, rfl, rfl⟩
  | cons l ls ih =>
    intro out m h
    have hls : ∀ b, some b ∈ ls → b.length < fuel :=
      fun b hb => h b (List.mem_cons_of_mem _ hb)
    cases l with
    | none =>
      rw [monitorLoop]
      exact ih out m hls
    | some buf =>
      obtain ⟨r, hr, hret, hmem, _⟩ :=
        runcmd_ret K fuel buf tf argv0 m (h buf (List.mem_cons_self _ _))
      rw [monitorLoop]
      simp only [hr]
      have hneg : ¬ r.ret < 0 := by rw [hret]; decide
      rw [if_neg hneg, hmem]
      exact ih _ m hls

/-! ## The command interpreter and the monitor loop -/

/-- C13, evaluated on the code: the table `commands` holds `mon_help` and
`mon_kerninfo` only, so no call of `runcmd`, whatever the line, calls
`mon_backtrace`: the line `backtrace` prints `Unknown command 'backtrace'` and
returns 0. `runcmd` does call `mon_backtrace` and return its status once the
table has an entry for it. -/
theorem runcmd_never_calls_mon_backtrace :
    commands.map (fun c => c.func) = [MonFn.mon_help, MonFn.mon_kerninfo] ∧
    (¬ ∃ (K : Kernel) (fuel : Nat) (buf : List Char) (tf : Nat)
        (argv0 : Nat → Option Nat) (m : Mem) (r : RunResult),
      runcmd K fuel buf tf argv0 m = some r ∧ r.called = some MonFn.mon_backtrace) ∧
    (runcmd kern3 100 "backtrace".toList 0 (fun _ => none) mem3).map
        (fun r => (r.ret, r.out, r.called))
      = some (0, [MonOut.unknown "backtrace".toList], none) ∧
    (runcmdWith commandsBt kern3 100 "backtrace".toList 0 (fun _ => none) mem3).map
        (fun r => (r.ret, r.out.length, r.called))
      = some (0, 7, some MonFn.mon_backtrace) := by
  refine ⟨by decide, ?_, by decide, by decide⟩
  rintro ⟨K, fuel, buf, tf, argv0, m, r, hr, hc⟩
  obtain ⟨c, hmem, hf⟩ := runcmdWith_called commands K fuel buf tf argv0 m r _ hr hc
  rcases commands_func c hmem with h | h <;> rw [h] at hf <;> cases hf

/-- C16, evaluated on the code: a line of 16 tokens is rejected with
`Too many arguments (max 16)`, returns 0 and calls no command, while the
same line without its last token (15 tokens) is dispatched. -/
theorem runcmd_rejects_sixteenth_argument :
    (wsTokens line16).length = 16 ∧
    (runcmd kern3 100 line16 0 (fun _ => none) mem3).map
        (fun r => (r.ret, r.out, r.called))
      = some (0, [MonOut.tooMany 16], none) ∧
    (wsTokens line15).length = 15 ∧
    (runcmd kern3 100 line15 0 (fun _ => none) mem3).map
        (fun r => (r.ret, r.out, r.argc, r.called))
      = some (0, [MonOut.helpLine "help" "Display this list of commands",
                  MonOut.helpLine "kerninfo" "Display information about the kernel"],
              15, some MonFn.mon_help) := by
  refine ⟨by decide, by decide, by decide, by decide⟩

/-- C17: for every command buffer with fewer than `MAXARGS` tokens `runcmd`
returns (with any fuel above the length of the buffer), and at its return
`argc` is the number of tokens, the strings `argv[0]`, ..., `argv[argc - 1]` are
the tokens (the maximal runs of characters other than tab, carriage return,
newline and space before the first NUL) from left to right, and `argv[argc]`
is null; a buffer with no token, such as an empty one or one of whitespace
only, gives `argc = 0`, prints nothing, calls nothing and returns 0. -/
theorem runcmd_tokenizes (K : Kernel) (fuel : Nat) (buf : List Char) (tf : Nat)
    (argv0 : Nat → Option Nat) (m : Mem) (hf : buf.length < fuel)
    (hn : (wsTokens buf).length < MAXARGS) :
    ∃ r, runcmd K fuel buf tf argv0 m = some r ∧
      r.argc = (wsTokens buf).length ∧
      argStrings r.buf r.argc r.argv = wsTokens buf ∧
      r.argv r.argc = none ∧
      ((wsTokens buf = [] ∨ ∀ c, c ∈ buf → isWhitespace c = true) →
        r.argc = 0 ∧ r.ret = 0 ∧ r.out = [] ∧ r.called = none) := by
  have hn15 : (wsTokens buf).length ≤ 15 := by
    simp only [MAXARGS] at hn; omega
  obtain ⟨b, av, hnull, hstr, hr⟩ :=
    runcmdWith_line commands K fuel buf tf argv0 m hf hn15
  unfold runcmd
  rw [hr]
  by_cases h0 : (wsTokens buf).length = 0
  · rw [if_pos h0]
    exact ⟨_, rfl, rfl, hstr, hnull, fun _ => ⟨h0, rfl, rfl, rfl⟩⟩
  · rw [if_neg h0]
    have hne : ¬ (wsTokens buf = [] ∨ ∀ c, c ∈ buf → isWhitespace c = true) := by
      rintro (h | h)
      · rw [h] at h0; exact h0 rfl
      · rw [wsTokens_all_ws buf h] at h0; exact h0 rfl
    cases hl : lookupCommand commands ((wsTokens buf).headD []) with
    | none => exact ⟨_, rfl, rfl, hstr, hnull, fun h => absurd h hne⟩
    | some c =>
      obtain ⟨x, hx, _, _⟩ := callFn_commands K fuel c (lookupCommand_mem _ _ _ hl)
        (wsTokens buf).length ((wsTokens buf).map String.mk) tf m
      simp only [hx, Option.map_some']
      exact ⟨_, rfl, rfl, hstr, hnull, fun h => absurd h hne⟩

/-- Witness of C17: a line with three tokens separated by whitespace of all
four kinds, and a line of whitespace only. -/
theorem runcmd_tokenizes_witness :
    (lineHelp.length < 100 ∧ (wsTokens lineHelp).length < MAXARGS ∧
      wsTokens lineHelp = ["help".toList, "me".toList, "please".toList] ∧
      (runcmd kern3 100 " \t\r\n ".toList 0 (fun _ => none) mem3).map
          (fun r => (r.ret, r.out, r.argc, r.called))
        = some (0, [], 0, none)) ∧
    ∃ r, runcmd kern3 100 lineHelp 0 (fun _ => some 7) mem3 = some r ∧
      r.argc = (wsTokens lineHelp).length ∧
      argStrings r.buf r.argc r.argv = wsTokens lineHelp ∧
      r.argv r.argc = none ∧
      ((wsTokens lineHelp = [] ∨ ∀ c, c ∈ lineHelp → isWhitespace c = true) →
        r.argc = 0 ∧ r.ret = 0 ∧ r.out = [] ∧ r.called = none) :=
  ⟨⟨by decide, by decide, by decide, by decide⟩,
    runcmd_tokenizes kern3 100 lineHelp 0 (fun _ => some 7) mem3 (by decide) (by decide)⟩

theorem runcmd_ret_of_some (K : Kernel) (fuel : Nat) (buf : List Char) (tf : Nat)
    (argv0 : Nat → Option Nat) (m : Mem) (r : RunResult)
    (h : runcmd K fuel buf tf argv0 m = some r) : r.ret = 0 := by
  unfold runcmd runcmdWith at h
  cases hp : parseArgs fuel [] buf 0 (setArg argv0 0 none) with
  | none => rw [hp] at h; simp at h
  | some p =>
    rw [hp] at h
    cases p with
    | tooMany b n av =>
      simp only [Option.some.injEq] at h
      rw [← h]
    | done b n av =>
      simp only at h
      by_cases h0 : n = 0
      · rw [if_pos h0] at h
        simp only [Option.some.injEq] at h
        rw [← h]
      · rw [if_neg h0] at h
        cases hl : lookupCommand commands (argStr b (setArg av n none 0)) with
        | none =>
          rw [hl] at h
          simp only [Option.some.injEq] at h
          rw [← h]
        | some c =>
          rw [hl] at h
          obtain ⟨x, hx, hx0, _⟩ := callFn_commands K fuel c (lookupCommand_mem _ _ _ hl)
            n ((argStrings b n (setArg av n none)).map String.mk) tf m
          simp only [hx, Option.map_some', Option.some.injEq] at h
          rw [← h]
          exact hx0

/-- C18, refuted as stated: the first token of the 17-token line `line17k` is
`kerninfo`, the name of an entry of the table, and yet `runcmd` calls no
command and prints `Too many arguments (max 16)` itself. -/
theorem runcmd_known_command_rejected :
    (wsTokens line17k).length = 17 ∧
    (wsTokens line17k).head? = some "kerninfo".toList ∧
    (lookupCommand commands "kerninfo".toList).map (fun c => c.func)
      = some MonFn.mon_kerninfo ∧
    (runcmd kern3 100 line17k 0 (fun _ => none) mem3).map
        (fun r => (r.ret, r.out, r.called))
      = some (0, [MonOut.tooMany 16], none) := by
  refine ⟨by decide, by decide, by decide, by decide⟩

/-- C18, amended: on a line of 1 to 15 tokens `runcmd` looks the first token
`t` up in the table by string equality with the names, in table order (the
first entry whose name is `t`): when there is such an entry the call is that
of the entry's function with `argc` the number of tokens, `argv` the tokens
and `tf`, its return value and output being those of the function and
nothing more; when there is none, `runcmd` prints `Unknown command` with the
token and returns 0. With the table `commands` this calls `mon_help` for
`help`, `mon_kerninfo` for `kerninfo`, and nothing for any other token. A
line of more than 16 tokens is rejected before the table is looked at. -/
theorem runcmd_dispatch (cmds : List Command) (K : Kernel) (fuel : Nat)
    (buf : List Char) (tf : Nat) (argv0 : Nat → Option Nat) (m : Mem)
    (hf : buf.length < fuel) :
    (∀ t ts, wsTokens buf = t :: ts → ts.length < 15 →
      lookupCommand cmds t
        = cmds.find? (fun c => decide (t = c.name.toList.takeWhile (fun x => x ≠ NUL))) ∧
      (∀ c, lookupCommand cmds t = some c → ∃ b av,
        runcmdWith cmds K fuel buf tf argv0 m
          = (callFn K fuel c.func ((t :: ts).length : Nat) ((t :: ts).map String.mk)
              tf m).map
            (fun r => { ret := r.ret, out := r.out, mem := r.mem, buf := b,
                        argc := (t :: ts).length, argv := av, called := some c.func })) ∧
      (lookupCommand cmds t = none →
        ∃ r, runcmdWith cmds K fuel buf tf argv0 m = some r ∧ r.ret = 0 ∧
          r.out = [MonOut.unknown t] ∧ r.called = none ∧ r.mem = m) ∧
      (t = "help".toList →
        ∃ r, runcmd K fuel buf tf argv0 m = some r ∧ r.called = some MonFn.mon_help ∧
          r.ret = (mon_help ((t :: ts).length : Nat) ((t :: ts).map String.mk) tf).1 ∧
          r.out = (mon_help ((t :: ts).length : Nat) ((t :: ts).map String.mk) tf).2) ∧
      (t = "kerninfo".toList →
        ∃ r, runcmd K fuel buf tf argv0 m = some r ∧
          r.called = some MonFn.mon_kerninfo ∧
          r.ret = (mon_kerninfo K ((t :: ts).length : Nat) ((t :: ts).map String.mk) tf).1 ∧
          r.out
            = (mon_kerninfo K ((t :: ts).length : Nat) ((t :: ts).map String.mk) tf).2) ∧
      (t ≠ "help".toList → t ≠ "kerninfo".toList →
        ∃ r, runcmd K fuel buf tf argv0 m = some r ∧ r.ret = 0 ∧
          r.out = [MonOut.unknown t] ∧ r.called = none)) ∧
    (16 < (wsTokens buf).length →
      ∃ r, runcmdWith cmds K fuel buf tf argv0 m = some r ∧ r.ret = 0 ∧
        r.out = [MonOut.tooMany 16] ∧ r.called = none) := by
  constructor
  · intro t ts hts hn
    have hn15 : (wsTokens buf).length ≤ 15 := by rw [hts]; simp; omega
    have h0 : ¬ (wsTokens buf).length = 0 := by rw [hts]; simp
    have hline : ∀ tbl : List Command, ∃ b av,
        runcmdWith tbl K fuel buf tf argv0 m =
          match lookupCommand tbl t with
          | some c =>
            (callFn K fuel c.func ((t :: ts).length : Nat) ((t :: ts).map String.mk)
                tf m).map
              (fun r => { ret := r.ret, out := r.out, mem := r.mem, buf := b,
                          argc := (t :: ts).length, argv := av, called := some c.func })
          | none =>
            some { ret := 0, out := [MonOut.unknown t], mem := m, buf := b,
                   argc := (t :: ts).length, argv := av, called := none } := by
      intro tbl
      obtain ⟨b, av, _, _, hr⟩ := runcmdWith_line tbl K fuel buf tf argv0 m hf hn15
      rw [if_neg h0, hts] at hr
      exact ⟨b, av, hr⟩
    have hhelp : lookupCommand commands "help".toList = some
        { name := "help", desc := "Display this list of commands",
          func := MonFn.mon_help } := by decide
    have hkern : lookupCommand commands "kerninfo".toList = some
        { name := "kerninfo", desc := "Display information about the kernel",
          func := MonFn.mon_kerninfo } := by decide
    refine ⟨lookupCommand_find cmds t, ?_, ?_, ?_, ?_, ?_⟩
    · intro c hc
      obtain ⟨b, av, hr⟩ := hline cmds
      rw [hc] at hr
      exact ⟨b, av, hr⟩
    · intro hnone
      obtain ⟨b, av, hr⟩ := hline cmds
      rw [hnone] at hr
      exact ⟨_, hr, rfl, rfl, rfl, rfl⟩
    · intro ht
      obtain ⟨b, av, hr⟩ := hline commands
      rw [ht, hhelp] at hr
      rw [ht]
      exact ⟨_, hr, rfl, rfl, rfl⟩
    · intro ht
      obtain ⟨b, av, hr⟩ := hline commands
      rw [ht, hkern] at hr
      rw [ht]
      exact ⟨_, hr, rfl, rfl, rfl⟩
    · intro h1 h2
      obtain ⟨b, av, hr⟩ := hline commands
      have hnone : lookupCommand commands t = none := by
        have e1 : ("help" : String).toList.takeWhile (fun x => decide (x ≠ NUL))
            = "help".toList := by decide
        have e2 : ("kerninfo" : String).toList.takeWhile (fun x => decide (x ≠ NUL))
            = "kerninfo".toList := by decide
        simp only [lookupCommand, commands, e1, e2]
        rw [if_neg h1, if_neg h2]
      rw [hnone] at hr
      exact ⟨_, hr, rfl, rfl, rfl⟩
  · intro h16
    obtain ⟨b, av, hr⟩ := runcmdWith_tooMany cmds K fuel buf tf argv0 m hf (by omega)
    exact ⟨_, hr, rfl, rfl, rfl⟩

/-- Witness of the amended C18: the line `lineHelp`, whose first token is
`help`, and lines whose first token is a proper beginning of `help`, `help` in
another case, and a longer string. -/
theorem runcmd_dispatch_witness :
    (lineHelp.length < 100 ∧
      wsTokens lineHelp = ["help".toList, "me".toList, "please".toList] ∧
      (runcmd kern3 100 lineHelp 0 (fun _ => none) mem3).map
          (fun r => (r.ret, r.out, r.argc, r.called))
        = some (0, [MonOut.helpLine "help" "Display this list of commands",
                    MonOut.helpLine "kerninfo" "Display information about the kernel"],
                3, some MonFn.mon_help) ∧
      (runcmd kern3 100 "hel".toList 0 (fun _ => none) mem3).map
          (fun r => (r.ret, r.out, r.called))
        = some (0, [MonOut.unknown "hel".toList], none) ∧
      (runcmd kern3 100 "HELP".toList 0 (fun _ => none) mem3).map
          (fun r => (r.ret, r.out, r.called))
        = some (0, [MonOut.unknown "HELP".toList], none) ∧
      (runcmd kern3 100 "helpx".toList 0 (fun _ => none) mem3).map
          (fun r => (r.ret, r.out, r.called))
        = some (0, [MonOut.unknown "helpx".toList], none)) ∧
    ((∀ t ts, wsTokens lineHelp = t :: ts → ts.length < 15 →
      lookupCommand commands t
        = commands.find?
            (fun c => decide (t = c.name.toList.takeWhile (fun x => x ≠ NUL))) ∧
      (∀ c, lookupCommand commands t = some c → ∃ b av,
        runcmdWith commands kern3 100 lineHelp 0 (fun _ => none) mem3
          = (callFn kern3 100 c.func ((t :: ts).length : Nat) ((t :: ts).map String.mk)
              0 mem3).map
            (fun r => { ret := r.ret, out := r.out, mem := r.mem, buf := b,
                        argc := (t :: ts).length, argv := av, called := some c.func })) ∧
      (lookupCommand commands t = none →
        ∃ r, runcmdWith commands kern3 100 lineHelp 0 (fun _ => none) mem3 = some r ∧
          r.ret = 0 ∧ r.out = [MonOut.unknown t] ∧ r.called = none ∧ r.mem = mem3) ∧
      (t = "help".toList →
        ∃ r, runcmd kern3 100 lineHelp 0 (fun _ => none) mem3 = some r ∧
          r.called = some MonFn.mon_help ∧
          r.ret = (mon_help ((t :: ts).length : Nat) ((t :: ts).map String.mk) 0).1 ∧
          r.out = (mon_help ((t :: ts).length : Nat) ((t :: ts).map String.mk) 0).2) ∧
      (t = "kerninfo".toList →
        ∃ r, runcmd kern3 100 lineHelp 0 (fun _ => none) mem3 = some r ∧
          r.called = some MonFn.mon_kerninfo ∧
          r.ret
            = (mon_kerninfo kern3 ((t :: ts).length : Nat) ((t :: ts).map String.mk) 0).1 ∧
          r.out
            = (mon_kerninfo kern3 ((t :: ts).length : Nat)
                ((t :: ts).map String.mk) 0).2) ∧
      (t ≠ "help".toList → t ≠ "kerninfo".toList →
        ∃ r, runcmd kern3 100 lineHelp 0 (fun _ => none) mem3 = some r ∧ r.ret = 0 ∧
          r.out = [MonOut.unknown t] ∧ r.called = none)) ∧
    (16 < (wsTokens lineHelp).length →
      ∃ r, runcmdWith commands kern3 100 lineHelp 0 (fun _ => none) mem3 = some r ∧
        r.ret = 0 ∧ r.out = [MonOut.tooMany 16] ∧ r.called = none)) :=
  ⟨⟨by decide, by decide, by decide, by decide, by decide, by decide⟩,
    runcmd_dispatch commands kern3 100 lineHelp 0 (fun _ => none) mem3 (by decide)⟩

/-- C19: with the table `commands` every registered command returns 0, and
`runcmd` returns 0, so never a negative value, for every command buffer: it
returns for every fuel above the length of the buffer, and whenever it
returns the value is 0. So the loop of `monitor` is not left by its `break`:
whatever lines it reads, it has read them all and has not exited. -/
theorem monitor_never_exits (K : Kernel) (fuel : Nat) (tf : Nat)
    (argv0 : Nat → Option Nat) (m : Mem) :
    (∀ c, c ∈ commands → ∀ (argc : Int) (argv : List String) (tf2 : Nat) (m2 : Mem),
      ∃ r, callFn K fuel c.func argc argv tf2 m2 = some r ∧ r.ret = 0) ∧
    (∀ buf r, runcmd K fuel buf tf argv0 m = some r → r.ret = 0 ∧ ¬ r.ret < 0) ∧
    (∀ buf, buf.length < fuel →
      ∃ r, runcmd K fuel buf tf argv0 m = some r ∧ r.ret = 0 ∧ ¬ r.ret < 0) ∧
    (∀ lines : List (Option (List Char)), (∀ b, some b ∈ lines → b.length < fuel) →
      ∃ r, monitor K fuel tf argv0 lines m = some r ∧ r.exited = false ∧
        r.unread = []) := by
  refine ⟨?_, ?_, ?_, ?_⟩
  · intro c hc argc argv tf2 m2
    obtain ⟨r, h1, h2, _⟩ := callFn_commands K fuel c hc argc argv tf2 m2
    exact ⟨r, h1, h2⟩
  · intro buf r hr
    have h0 := runcmd_ret_of_some K fuel buf tf argv0 m r hr
    exact ⟨h0, by rw [h0]; decide⟩
  · intro buf hf
    obtain ⟨r, h1, h2, _, _⟩ := runcmd_ret K fuel buf tf argv0 m hf
    exact ⟨r, h1, h2, by rw [h2]; decide⟩
  · intro lines hl
    obtain ⟨r, h1, h2, h3, _⟩ := monitorLoop_runs K fuel tf argv0 lines
      ([MonOut.welcome, MonOut.typeHelp] ++ (if tf ≠ 0 then [MonOut.trapframe tf] else []))
      m hl
    exact ⟨r, h1, h2, h3⟩

/-- Witness of C19: the monitor, given the lines `help`, a null line, a line of
17 tokens, `exit` and `backtrace`, reads them all and has not exited. -/
theorem monitor_never_exits_witness :
    ((monitor kern3 100 0 (fun _ => none)
          [some "help".toList, none, some line17k, some "exit".toList,
            some "backtrace".toList] mem3).map (fun r => (r.exited, r.out, r.unread))
        = some (false,
            [MonOut.welcome, MonOut.typeHelp,
              MonOut.helpLine "help" "Display this list of commands",
              MonOut.helpLine "kerninfo" "Display information about the kernel",
              MonOut.tooMany 16,
              MonOut.unknown "exit".toList,
              MonOut.unknown "backtrace".toList], [])) ∧
    ((∀ c, c ∈ commands → ∀ (argc : Int) (argv : List String) (tf2 : Nat) (m2 : Mem),
      ∃ r, callFn kern3 100 c.func argc argv tf2 m2 = some r ∧ r.ret = 0) ∧
    (∀ buf r, runcmd kern3 100 buf 0 (fun _ => none) mem3 = some r →
      r.ret = 0 ∧ ¬ r.ret < 0) ∧
    (∀ buf, buf.length < 100 →
      ∃ r, runcmd kern3 100 buf 0 (fun _ => none) mem3 = some r ∧ r.ret = 0 ∧
        ¬ r.ret < 0) ∧
    (∀ lines : List (Option (List Char)), (∀ b, some b ∈ lines → b.length < 100) →
      ∃ r, monitor kern3 100 0 (fun _ => none) lines mem3 = some r ∧ r.exited = false ∧
        r.unread = [])) :=
  ⟨by decide, monitor_never_exits kern3 100 0 (fun _ => none) mem3⟩

end Monitor
